import Mathlib

/-!
# Verification of the Smart_Feedback_Analysis core

Shallow embedding of the sentiment-scoring and topic-extraction core
(`src/data_processing/sentiment_analyzer.py` and
`src/data_processing/topic_extractor.py`) and proofs about it.

Conventions of the embedding:
* Python strings are modelled as Lean `String` / `List Char`, restricted to
  the ASCII behaviour of the Python string operations involved.
* Python floats are modelled as `ℚ`; `round(x, n)` is modelled as exact
  round-half-to-even at `n` decimal digits.
* Calls into external libraries (VADER, TextBlob, NLTK tokenizer and
  lemmatizer, scikit-learn KMeans) are modelled as function parameters;
  hypotheses state the documented facts about their outputs that a claim
  needs.
* A Python value that may be `None`/NaN is modelled as `Option String`
  (`pd.isna(text) or not isinstance(text, str)` collapses to the `none`
  case).
-/

namespace SmartFeedback

/-! ## Character classes (ASCII model of the Python string operations) -/

/-- The whitespace characters recognised by Python `str.split`, `str.strip`
and the regex class `\s` (ASCII fragment). -/
def isSpaceC (c : Char) : Bool :=
  c.toNat = 32 ∨ c.toNat = 9 ∨ c.toNat = 10 ∨ c.toNat = 13 ∨ c.toNat = 11 ∨ c.toNat = 12

/-- Membership in Python `string.punctuation`
(ASCII codes 33–47, 58–64, 91–96, 123–126). -/
def isPunct (c : Char) : Bool :=
  (33 ≤ c.toNat ∧ c.toNat ≤ 47) ∨ (58 ≤ c.toNat ∧ c.toNat ≤ 64) ∨
  (91 ≤ c.toNat ∧ c.toNat ≤ 96) ∨ (123 ≤ c.toNat ∧ c.toNat ≤ 126)

/-- The regex class `\w`: ASCII letters, digits and underscore. -/
def isWordC (c : Char) : Bool :=
  (48 ≤ c.toNat ∧ c.toNat ≤ 57) ∨ (65 ≤ c.toNat ∧ c.toNat ≤ 90) ∨
  (97 ≤ c.toNat ∧ c.toNat ≤ 122) ∨ c.toNat = 95

/-- The regex class `\d`: ASCII digits. -/
def isDigitC (c : Char) : Bool :=
  48 ≤ c.toNat ∧ c.toNat ≤ 57

/-- Uppercase/lowercase ASCII pairs, used to model Python `str.lower`. -/
def lowerPairs : List (Char × Char) :=
  [('A', 'a'), ('B', 'b'), ('C', 'c'), ('D', 'd'), ('E', 'e'), ('F', 'f'),
   ('G', 'g'), ('H', 'h'), ('I', 'i'), ('J', 'j'), ('K', 'k'), ('L', 'l'),
   ('M', 'm'), ('N', 'n'), ('O', 'o'), ('P', 'p'), ('Q', 'q'), ('R', 'r'),
   ('S', 's'), ('T', 't'), ('U', 'u'), ('V', 'v'), ('W', 'w'), ('X', 'x'),
   ('Y', 'y'), ('Z', 'z')]

/-- ASCII model of Python `str.lower` on one character. -/
def pyLower (c : Char) : Char :=
  ((lowerPairs.find? (fun p => p.1 = c)).map Prod.snd).getD c

/-- Model of Python `str.lower` on a character list. -/
def lowerChars (s : List Char) : List Char :=
  s.map pyLower

/-! ## Python `str.split` / `' '.join` / `str.strip` -/

/-- Helper for `splitPy`: accumulates the current word (reversed). -/
def splitPyAux : List Char → List Char → List (List Char)
  | acc, [] => if acc.isEmpty then [] else [acc.reverse]
  | acc, c :: rest =>
    if isSpaceC c then
      if acc.isEmpty then splitPyAux [] rest
      else acc.reverse :: splitPyAux [] rest
    else splitPyAux (c :: acc) rest

/-- Python `str.split()` with no arguments: split on whitespace runs,
discarding empty pieces. -/
def splitPy (s : List Char) : List (List Char) :=
  splitPyAux [] s

/-- Python `' '.join(words)`. -/
def joinWords (ws : List (List Char)) : List Char :=
  (ws.intersperse [' ']).flatten

/-- Python `str.strip()`: drop leading and trailing whitespace. -/
def stripPy (s : List Char) : List Char :=
  ((s.dropWhile isSpaceC).reverse.dropWhile isSpaceC).reverse

/-! ## The regex substitutions of `clean_text` -/

/-- Length of a match of `http\S+|www\.\S+` anchored at the start of `s`
(`none` if there is no match here).  The alternation is ordered as in the
source pattern and `\S+` is greedy, so a match consumes the whole
non-whitespace run after the literal. -/
def urlMatchLen (s : List Char) : Option ℕ :=
  if s.take 4 = ['h', 't', 't', 'p'] ∧ ((s.drop 4).takeWhile (fun c => ¬ isSpaceC c)).length ≥ 1 then
    some (4 + ((s.drop 4).takeWhile (fun c => ¬ isSpaceC c)).length)
  else if s.take 4 = ['w', 'w', 'w', '.'] ∧ ((s.drop 4).takeWhile (fun c => ¬ isSpaceC c)).length ≥ 1 then
    some (4 + ((s.drop 4).takeWhile (fun c => ¬ isSpaceC c)).length)
  else none

/-- Length of a match of `@\w+|#\w+` anchored at the start of `s`. -/
def mentionMatchLen (s : List Char) : Option ℕ :=
  match s with
  | [] => none
  | c :: rest =>
    if (c = '@' ∨ c = '#') ∧ (rest.takeWhile isWordC).length ≥ 1 then
      some (1 + (rest.takeWhile isWordC).length)
    else none

/-- Length of a match of `\S+@\S+` anchored at the start of `s`: the first
`\S+` is greedy with backtracking, so a match exists exactly when the
maximal non-whitespace run starting here contains `'@'` at an interior
position, and the match then consumes the whole run. -/
def emailMatchLen (s : List Char) : Option ℕ :=
  match s with
  | [] => none
  | c :: _ =>
    if ¬ isSpaceC c ∧ ((s.takeWhile (fun c => ¬ isSpaceC c)).drop 1).dropLast.contains '@' then
      some (s.takeWhile (fun c => ¬ isSpaceC c)).length
    else none

/-- One generic `re.sub(pat, '', s)` scanner: `m` gives the length of a
match anchored at the current position; on a match the matched characters
are dropped and scanning resumes after them, otherwise the scanner moves
one character forward.  `fuel` bounds the recursion (callers pass
`s.length`; every step consumes at least one character). -/
def reSubAux (m : List Char → Option ℕ) : ℕ → List Char → List Char
  | 0, s => s
  | _ + 1, [] => []
  | fuel + 1, c :: rest =>
    match m (c :: rest) with
    | some k => reSubAux m fuel (List.drop k (c :: rest))
    | none => c :: reSubAux m fuel rest

/-- `re.sub(pat, '', s)` for an anchored matcher `m`. -/
def reSub (m : List Char → Option ℕ) (s : List Char) : List Char :=
  reSubAux m s.length s

/-- `re.sub(r'\s+', ' ', s)`: the flag records whether the previous
character was part of a whitespace run already replaced by `' '`. -/
def collapseWsAux : Bool → List Char → List Char
  | _, [] => []
  | prevWs, c :: rest =>
    if isSpaceC c then
      if prevWs then collapseWsAux true rest
      else ' ' :: collapseWsAux true rest
    else c :: collapseWsAux false rest

/-- `re.sub(r'\s+', ' ', s)`. -/
def collapseWs (s : List Char) : List Char :=
  collapseWsAux false s

/-- Characters kept by sentiment-mode punctuation removal: everything but
punctuation other than `.` (46), `!` (33), `?` (63). -/
def keepSentimentChar (c : Char) : Bool :=
  ¬ (isPunct c ∧ c.toNat ≠ 46 ∧ c.toNat ≠ 33 ∧ c.toNat ≠ 63)

/-- Sentiment-mode punctuation removal:
`text.translate(str.maketrans('', '', string.punctuation.replace('.', '').replace('!', '').replace('?', '')))`,
i.e. delete every punctuation character except `.`, `!`, `?`. -/
def stripPunctSentiment (s : List Char) : List Char :=
  s.filter keepSentimentChar

/-- `SentimentAnalyzer.clean_text` on the character list of a string that
passed the `isinstance` guard. -/
def cleanChars (s : List Char) : List Char :=
  stripPy (joinWords (splitPy (stripPunctSentiment
    (collapseWs (reSub emailMatchLen (reSub mentionMatchLen (reSub urlMatchLen
      (lowerChars s))))))))

/-- `SentimentAnalyzer.clean_text` on a `String`. -/
def cleanTextStr (s : String) : String :=
  ⟨cleanChars s.toList⟩

/-- `SentimentAnalyzer.clean_text`, with `none` standing for a `None`/NaN
/non-string argument (the `pd.isna(text) or not isinstance(text, str)`
guard returns `""` for those). -/
def cleanText : Option String → String
  | none => ""
  | some s => cleanTextStr s

/-! ## Python `round` -/

/-- Kernel-computable floor of a rational (Euclidean division of the
numerator by the positive denominator). -/
def ratFloor (q : ℚ) : ℤ :=
  Int.ediv q.num q.den

/-- Round a rational to the nearest integer, ties to even
(the rounding used by Python `round`). -/
def roundHE (q : ℚ) : ℤ :=
  if q - ratFloor q < 1 / 2 then ratFloor q
  else if q - ratFloor q > 1 / 2 then ratFloor q + 1
  else if Int.emod (ratFloor q) 2 = 0 then ratFloor q else ratFloor q + 1

/-- Python `round(q, 4)`. -/
def round4 (q : ℚ) : ℚ :=
  (roundHE (q * 10000) : ℚ) / 10000

/-- Python `round(q, 3)`. -/
def round3 (q : ℚ) : ℚ :=
  (roundHE (q * 1000) : ℚ) / 1000

/-- Python `round(q, 2)`. -/
def round2 (q : ℚ) : ℚ :=
  (roundHE (q * 100) : ℚ) / 100

/-- Python `round(q, 1)`. -/
def round1 (q : ℚ) : ℚ :=
  (roundHE (q * 10) : ℚ) / 10

/-! ## `SentimentAnalyzer.analyze_sentiment` -/

/-- The result record of `analyze_sentiment` (the keys of the returned
dict, in source order). -/
structure SentimentResult where
  score : ℚ
  label : String
  confidence : ℚ
  vader_compound : ℚ
  textblob_polarity : ℚ
  subjectivity : ℚ
  deriving DecidableEq, Repr

/-- The zero/Neutral/zero-confidence record returned for falsy input and
substituted for a failed document in `analyze_batch`. -/
def zeroSentiment : SentimentResult :=
  ⟨0, "Neutral", 0, 0, 0, 0⟩

/-- Python falsiness of the `text` argument: `None` (or NaN) and the empty
string are falsy. -/
def pyFalsy : Option String → Bool
  | none => true
  | some s => s = ""

/-- `SentimentAnalyzer.analyze_sentiment_vader`, parametric in the VADER
model `V` (which returns the `compound` score of a non-empty cleaned
text). The empty-text guard is the source's own. -/
def analyzeVader (V : String → ℚ) (s : String) : ℚ :=
  if s = "" then 0 else V s

/-- `SentimentAnalyzer.analyze_sentiment_textblob`, parametric in the
TextBlob model `TB` returning `(polarity, subjectivity)`. The empty-text
guard is the source's own. -/
def analyzeTextblob (TB : String → ℚ × ℚ) (s : String) : ℚ × ℚ :=
  if s = "" then (0, 0) else TB s

/-- The unrounded combined score `vader_compound * vader_weight +
textblob_polarity * textblob_weight` computed by `analyze_sentiment`
(0 on the falsy-input early return). -/
def combinedScore (V : String → ℚ) (TB : String → ℚ × ℚ)
    (text : Option String) (vw tw : ℚ) : ℚ :=
  if pyFalsy text then 0
  else
    analyzeVader V (cleanText text) * vw + (analyzeTextblob TB (cleanText text)).1 * tw

/-- `SentimentAnalyzer.analyze_sentiment`, parametric in the two external
models. Mirrors the source: falsy input returns the zero record; otherwise
the text is cleaned, both models are consulted, the weighted combination
is thresholded into a label, confidence is magnitude times agreement, and
the numeric fields are rounded to 4 decimal digits. -/
def analyzeSentiment (V : String → ℚ) (TB : String → ℚ × ℚ)
    (text : Option String) (vw tw : ℚ) : SentimentResult :=
  if pyFalsy text then zeroSentiment
  else
    let cleaned := cleanText text
    let vader_compound := analyzeVader V cleaned
    let tb := analyzeTextblob TB cleaned
    let textblob_polarity := tb.1
    let subjectivity := tb.2
    let combined_score := vader_compound * vw + textblob_polarity * tw
    let label :=
      if combined_score ≥ 5 / 100 then "Positive"
      else if combined_score ≤ -(5 / 100) then "Negative"
      else "Neutral"
    let score_magnitude := |combined_score|
    let agreement_factor := 1 - |vader_compound - textblob_polarity| / 2
    let confidence := min (score_magnitude * agreement_factor) 1
    ⟨round4 combined_score, label, round4 confidence,
     round4 vader_compound, round4 textblob_polarity, round4 subjectivity⟩

/-! ## `SentimentAnalyzer.analyze_batch` -/

/-- One row of the DataFrame built by `analyze_batch`: the sentiment dict
plus `text_id`, `original_text`, `cleaned_text`. -/
structure BatchRecord where
  text_id : ℕ
  result : SentimentResult
  original_text : Option String
  cleaned_text : String
  deriving DecidableEq, Repr

/-- The row built for one document at global index `i`: `scoreF` models
the `analyze_sentiment` call inside the `try` (`none` = the call raised),
and the `except` branch appends the zero/Neutral record with empty cleaned
text. -/
def batchRecord (scoreF : Option String → Option SentimentResult)
    (i : ℕ) (t : Option String) : BatchRecord :=
  match scoreF t with
  | some s => ⟨i, s, t, if pyFalsy t then "" else cleanText t⟩
  | none => ⟨i, zeroSentiment, t, ""⟩

/-- The loop of `analyze_batch`: `i` is the start offset of the current
batch (`for i in range(0, len(texts), batch_size)`), the inner loop
enumerates the slice `texts[i:i+batch_size]` and stamps `text_id = i +
idx`. `fuel` bounds the outer loop (callers pass `texts.length`). -/
def analyzeBatchAux (scoreF : Option String → Option SentimentResult)
    (bs : ℕ) : ℕ → ℕ → List (Option String) → List BatchRecord
  | _, _, [] => []
  | 0, _, _ :: _ => []
  | fuel + 1, i, l =>
    (((l.take bs).enumFrom i).map (fun p => batchRecord scoreF p.1 p.2)) ++
      analyzeBatchAux scoreF bs fuel (i + bs) (l.drop bs)

/-- `SentimentAnalyzer.analyze_batch` (the list of rows of the returned
DataFrame). -/
def analyzeBatch (scoreF : Option String → Option SentimentResult)
    (texts : List (Option String)) (bs : ℕ) : List BatchRecord :=
  analyzeBatchAux scoreF bs texts.length 0 texts

/-! ## `TopicExtractor.preprocess_text` -/

/-- Anchored matcher for the combined topic-mode regex
`http\S+|www\.\S+|\S+@\S+|@\w+|#\w+` (alternatives tried in source
order). -/
def topicMatchLen (s : List Char) : Option ℕ :=
  match urlMatchLen s with
  | some k => some k
  | none =>
    match emailMatchLen s with
    | some k => some k
    | none => mentionMatchLen s

/-- Whether the first character of `s` is not a word character (vacuously
true at the end of the string) — the `\b` lookahead after a digit run. -/
def boundaryAt : List Char → Bool
  | [] => true
  | d :: _ => ¬ isWordC d

/-- Scanner for `re.sub(r'\b\d+\b', '', s)`: a maximal digit run is
removed when the previous character of the original string (tracked by
`prevWord`) is not a word character and the character after the run is
not a word character. -/
def subNumsAux : Bool → ℕ → List Char → List Char
  | _, 0, s => s
  | _, _ + 1, [] => []
  | prevWord, fuel + 1, c :: rest =>
    if ¬ prevWord ∧ isDigitC c ∧
        boundaryAt ((c :: rest).drop ((c :: rest).takeWhile isDigitC).length) then
      subNumsAux true fuel ((c :: rest).drop ((c :: rest).takeWhile isDigitC).length)
    else c :: subNumsAux (isWordC c) fuel rest

/-- `re.sub(r'\b\d+\b', '', s)`. -/
def subNums (s : List Char) : List Char :=
  subNumsAux false s.length s

/-- Topic-mode punctuation removal:
`text.translate(str.maketrans('', '', string.punctuation.replace('-', '').replace('_', '')))`,
i.e. delete every punctuation character except `-` (45) and `_` (95). -/
def stripPunctTopic (s : List Char) : List Char :=
  s.filter (fun c => ¬ (isPunct c ∧ c.toNat ≠ 45 ∧ c.toNat ≠ 95))

/-- Model of Python `str.lower` on a `String`. -/
def pyLowerS (s : String) : String :=
  ⟨lowerChars s.toList⟩

/-- Python `s.split()` returning `String` pieces. -/
def splitPyS (s : String) : List String :=
  (splitPy s.toList).map (fun w => ⟨w⟩)

/-- Python `s.strip()` on a `String`. -/
def stripPyS (s : String) : String :=
  ⟨stripPy s.toList⟩

/-- The custom domain stopwords added in `TopicExtractor.__init__`. -/
def customStopwords : List String :=
  ["product", "service", "company", "customer", "experience",
   "good", "bad", "great", "terrible", "amazing", "awful",
   "like", "love", "hate", "really", "very", "quite", "pretty",
   "would", "could", "should", "will", "can", "get", "use", "used"]

/-- `TopicExtractor.preprocess_text`, parametric in the external NLTK
pieces: `tokW` models `word_tokenize`, `lem` models
`WordNetLemmatizer.lemmatize`, `baseStop` models
`stopwords.words('english')` (the source unions it with
`customStopwords`). -/
def preprocessText (tokW : String → List String) (lem : String → String)
    (baseStop : List String) : Option String → String
  | none => ""
  | some s =>
    let t1 := lowerChars s.toList
    let t2 := reSub topicMatchLen t1
    let t3 := subNums t2
    let t4 := stripPunctTopic t3
    let t5 := joinWords (splitPy t4)
    let tokens := tokW ⟨t5⟩
    let kept := tokens.filter (fun tk => ¬ (tk ∈ baseStop ∨ tk ∈ customStopwords) ∧ tk.length > 2)
    String.intercalate " " (kept.map lem)

/-! ## A stable descending insertion sort

Python `list.sort(key=..., reverse=True)` is a stable sort; on equal keys
it keeps the original relative order.  The stable descending ordering of a
list is unique, so this insertion sort computes the same list. -/

/-- Insert `x` before the first element whose key is ≤ `key x` (so on a
tie the inserted element — which originally came first — stays first). -/
def insertDescBy (key : α → ℚ) (x : α) : List α → List α
  | [] => [x]
  | y :: ys => if key y ≤ key x then x :: y :: ys else y :: insertDescBy key x ys

/-- Stable sort by `key`, descending. -/
def sortDescBy (key : α → ℚ) : List α → List α
  | [] => []
  | x :: xs => insertDescBy key x (sortDescBy key xs)

/-! ## `TopicExtractor.extract_topics_kmeans` -/

/-- `np.mean` on a list of rationals. -/
def npMean (l : List ℚ) : ℚ :=
  l.sum / l.length

/-- One extracted topic (the dict built per cluster). -/
structure Topic where
  topic_id : ℕ
  topic_name : String
  keywords : List String
  keyword_scores : List ℚ
  document_count : ℕ
  coherence_score : ℚ
  cluster_center : List ℚ
  deriving DecidableEq, Repr

/-- `center.argsort()[-10:][::-1]`: the last (up to) 10 positions of the
ascending argsort, reversed — `argsortF` models `np.argsort`. -/
def topTermIndices (argsortF : List ℚ → List ℕ) (center : List ℚ) : List ℕ :=
  ((argsortF center).drop ((argsortF center).length - 10)).reverse

/-- `TopicExtractor.extract_topics_kmeans`, parametric in the external
scikit-learn results: `centers` models `kmeans.cluster_centers_`, `labels`
models `kmeans.fit_predict(...)`, `featureNames` models
`vectorizer.get_feature_names_out()` and `argsortF` models `np.argsort`.
Indexing `feature_names[idx]` / `center[idx]` is modelled with a default
(out-of-range indices do not occur for well-formed external results). -/
def extractTopicsKmeans (argsortF : List ℚ → List ℕ) (featureNames : List String)
    (centers : List (List ℚ)) (labels : List ℕ)
    (tokW : String → List String) (lem : String → String) (baseStop : List String)
    (texts : List (Option String)) (n_topics : ℕ) : List Topic :=
  if texts = [] ∨ texts.length < 2 then []
  else
    let cleaned0 := texts.map (preprocessText tokW lem baseStop)
    let cleaned := cleaned0.filter (fun t => stripPyS t ≠ "")
    if cleaned.length < 2 then []
    else
      let n_clusters := min n_topics cleaned.length
      let topics := (List.range n_clusters).map (fun cid =>
        let center := centers.getD cid []
        let top_indices := topTermIndices argsortF center
        let top_terms := top_indices.map (fun i => featureNames.getD i "")
        let top_scores := top_indices.map (fun i => center.getD i 0)
        let cluster_size := labels.countP (fun l => l = cid)
        let topic_name := String.intercalate " + " (top_terms.take 3)
        let coherence_score := npMean (top_scores.take 5)
        ⟨cid, topic_name, top_terms, top_scores, cluster_size, coherence_score, center⟩)
      sortDescBy (fun t => (t.document_count : ℚ)) topics

/-! ## `TopicExtractor.assign_topics_to_documents` -/

/-- `TopicExtractor._calculate_topic_relevance`. -/
def calcTopicRelevance (text : String) (keywords : List String) : ℚ :=
  if text = "" ∨ keywords = [] then 0
  else
    let text_words := (splitPyS (pyLowerS text)).dedup
    let keyword_matches := keywords.countP (fun k => pyLowerS k ∈ text_words)
    let relevance := (keyword_matches : ℚ) / keywords.length
    let length_bonus := min ((text_words.length : ℚ) / 50) (2 / 10)
    min (relevance + length_bonus) 1

/-- `TopicExtractor._get_matching_keywords`. -/
def getMatchingKeywords (text : String) (keywords : List String) : List String :=
  keywords.filter (fun k => pyLowerS k ∈ (splitPyS (pyLowerS text)).dedup)

/-- One document-topic assignment record. -/
structure Assignment where
  document_id : ℕ
  topic_id : ℕ
  topic_name : String
  relevance_score : ℚ
  keywords_found : List String
  deriving DecidableEq, Repr

/-- The per-topic loop body of `assign_topics_to_documents`: relevance is
computed against every topic (in list order) and only scores above the
0.1 floor produce a candidate record. -/
def docCandidates (topics : List Topic) (d : ℕ) (cleaned : String) : List Assignment :=
  topics.filterMap (fun tp =>
    let r := calcTopicRelevance cleaned tp.keywords
    if r > 1 / 10 then
      some ⟨d, tp.topic_id, tp.topic_name, r, getMatchingKeywords cleaned tp.keywords⟩
    else none)

/-- The per-document part of `assign_topics_to_documents`: falsy or
empty-after-preprocessing documents are skipped; candidates are sorted by
relevance descending (stable) and capped at 3. -/
def perDocAssignments (tokW : String → List String) (lem : String → String)
    (baseStop : List String) (topics : List Topic) (d : ℕ) (t : Option String) :
    List Assignment :=
  if pyFalsy t then []
  else
    let cleaned := preprocessText tokW lem baseStop t
    if cleaned = "" then []
    else (sortDescBy (fun a => a.relevance_score) (docCandidates topics d cleaned)).take 3

/-- `TopicExtractor.assign_topics_to_documents`. -/
def assignTopicsToDocuments (tokW : String → List String) (lem : String → String)
    (baseStop : List String) (texts : List (Option String)) (topics : List Topic) :
    List Assignment :=
  if texts = [] ∨ topics = [] then []
  else (texts.enum).flatMap (fun p => perDocAssignments tokW lem baseStop topics p.1 p.2)

/-! ## `TopicExtractor.generate_topic_summary` -/

/-- One entry of `topics_summary`. -/
structure TopicSummaryEntry where
  topic_id : ℕ
  topic_name : String
  keywords : List String
  document_count : ℕ
  average_relevance : ℚ
  percentage_of_docs : ℚ
  deriving DecidableEq, Repr

/-- The summary dict returned by `generate_topic_summary` (the empty-topics
early return carries only `total_topics` and `topics_summary`; the other
fields are 0 there). -/
structure TopicSummary where
  total_topics : ℕ
  total_documents_analyzed : ℕ
  average_topics_per_document : ℚ
  topics_summary : List TopicSummaryEntry
  deriving DecidableEq, Repr

/-- The loop that builds `topic_relevances`: a Python dict from topic id to
the list of relevance scores in iteration order, modelled as an
insertion-ordered association list. -/
def addRelevance (acc : List (ℕ × List ℚ)) (dt : Assignment) : List (ℕ × List ℚ) :=
  if acc.any (fun p => p.1 = dt.topic_id) then
    acc.map (fun p => if p.1 = dt.topic_id then (p.1, p.2 ++ [dt.relevance_score]) else p)
  else acc ++ [(dt.topic_id, [dt.relevance_score])]

/-- `topic_relevances` after the whole loop. -/
def topicRelevances (dts : List Assignment) : List (ℕ × List ℚ) :=
  dts.foldl addRelevance []

/-- `topic_relevances.get(topic_id, [0])`. -/
def relevancesOf (dts : List Assignment) (tid : ℕ) : List ℚ :=
  (((topicRelevances dts).find? (fun p => p.1 = tid)).map Prod.snd).getD [0]

/-- `Counter(dt['topic_id'] for dt in document_topics)[tid]`. -/
def topicDocCount (dts : List Assignment) (tid : ℕ) : ℕ :=
  (dts.map (fun dt => dt.topic_id)).count tid

/-- `len(set(dt['document_id'] for dt in document_topics))`. -/
def distinctDocCount (dts : List Assignment) : ℕ :=
  (dts.map (fun dt => dt.document_id)).dedup.length

/-- `TopicExtractor.generate_topic_summary`. -/
def generateTopicSummary (topics : List Topic) (dts : List Assignment) : TopicSummary :=
  if topics = [] then ⟨0, 0, 0, []⟩
  else
    let entries := topics.map (fun tp =>
      let doc_count := topicDocCount dts tp.topic_id
      let avg_relevance := npMean (relevancesOf dts tp.topic_id)
      let pct :=
        if dts = [] then 0
        else round1 ((doc_count : ℚ) / (distinctDocCount dts) * 100)
      TopicSummaryEntry.mk tp.topic_id tp.topic_name (tp.keywords.take 5)
        doc_count (round3 avg_relevance) pct)
    let sorted := sortDescBy (fun e => (e.document_count : ℚ)) entries
    ⟨topics.length, distinctDocCount dts,
     if dts = [] then 0 else round2 ((dts.length : ℚ) / (distinctDocCount dts)),
     sorted⟩


/-! ## Spec-side definitions

These restate formulas in the words of the specification, to be compared
with the definitions embedded from the source. -/

/-- The relevance formula as the specification words it: the number of
topic keywords present in the document's word set divided by the total
number of topic keywords, plus a length bonus `min(word count / 50, 0.2)`,
capped at 1.0. -/
def relevanceSpec (text : String) (keywords : List String) : ℚ :=
  let ws : Finset String := (splitPyS (pyLowerS text)).toFinset
  min (((keywords.filter (fun k => pyLowerS k ∈ ws)).length : ℚ) / keywords.length
    + min ((ws.card : ℚ) / 50) (2 / 10)) 1

/-- The original index of the topic with id `tid` in a topics list (the
position against which the spec's tie-break is stated). -/
def topicPos (topics : List Topic) (tid : ℕ) : ℕ :=
  (topics.map Topic.topic_id).indexOf tid

/-! ## Concrete instantiations of the external models, used in
counterexamples and witnesses -/

/-- A VADER stand-in returning compound score 0 on every text. -/
def vZero : String → ℚ :=
  fun _ => 0

/-- A TextBlob stand-in returning polarity and subjectivity 0. -/
def tbZero : String → ℚ × ℚ :=
  fun _ => (0, 0)

/-- A TextBlob stand-in with polarity 0.124975 (so that the default-weight
combination is 0.04999, just below the Positive cutoff but rounding to
0.05). -/
def tbNearCut : String → ℚ × ℚ :=
  fun _ => (124975 / 1000000, 0)

/-- A VADER stand-in with compound 0.123 (producing a confidence value
with more than 4 decimal digits). -/
def vPoint123 : String → ℚ :=
  fun _ => 123 / 1000

/-- Whitespace tokenization, a concrete stand-in for `word_tokenize`. -/
def tokWS : String → List String :=
  splitPyS

/-- The identity lemmatizer, a concrete stand-in for
`WordNetLemmatizer.lemmatize`. -/
def lemId : String → String :=
  fun w => w

/-- Default `BatchRecord` used with `List.getD` in statements. -/
def dummyBatchRecord : BatchRecord :=
  ⟨0, zeroSentiment, none, ""⟩

/-- Whether `pat` occurs as a contiguous substring of `s` (used to state
the conditions under which `clean_text` is idempotent). -/
def hasSub (pat : List Char) : List Char → Bool
  | [] => pat.isEmpty
  | c :: rest => decide ((c :: rest).take pat.length = pat) || hasSub pat rest

/-- The relevance list stored under key `tid` in the association list that
models `topic_relevances` (the empty list when the key is absent). -/
def valOf (acc : List (ℕ × List ℚ)) (tid : ℕ) : List ℚ :=
  (((acc.find? (fun p => p.1 = tid)).map Prod.snd).getD [])

/-- Two bare topics used to exercise `generate_topic_summary`. -/
def topics9 : List Topic :=
  [⟨0, "t0", [], [], 0, 0, []⟩, ⟨1, "t1", [], [], 0, 0, []⟩]

/-- An assignment list in which document 0 is assigned twice to topic 0:
`generate_topic_summary` counts assignment records, not distinct
documents. -/
def dts9 : List Assignment :=
  [⟨0, 0, "t0", 1 / 3, []⟩, ⟨0, 0, "t0", 1 / 3, []⟩,
   ⟨1, 1, "t1", 1 / 2, []⟩, ⟨2, 1, "t1", 1 / 2, []⟩]

/-- Default `TopicSummaryEntry` used with `List.getD` in statements. -/
def dummyEntry : TopicSummaryEntry :=
  ⟨0, "", [], 0, 0, 0⟩

/-! # Scaffolding lemmas and basic evaluations -/

example : cleanTextStr "" = "" := by decide
example : cleanTextStr "   " = "" := by decide
example : cleanTextStr "!!!" = "!!!" := by decide
example : cleanTextStr "htt;px" = "httpx" := by decide
example : cleanTextStr "httpx" = "" := by decide
example : cleanTextStr "Check http://x.co now" = "check now" := by decide
example : cleanTextStr "Hi @bob, SEE #tag a@b.c!" = "hi see a.c!" := by decide

lemma ratFloor_eq_floor (q : ℚ) : ratFloor q = ⌊q⌋ := by
  have hdn : ((q.den : ℕ) : ℚ) ≠ 0 := by
    exact_mod_cast q.den_nz
  have hdp : (0 : ℚ) < ((q.den : ℕ) : ℚ) := by
    exact_mod_cast q.pos
  have hd : (0 : ℤ) < (q.den : ℤ) := by exact_mod_cast q.pos
  have hmod := Int.emod_nonneg q.num (ne_of_gt hd)
  have hlt := Int.emod_lt_of_pos q.num hd
  have hsum : (q.den : ℤ) * Int.ediv q.num q.den + Int.emod q.num q.den = q.num :=
    Int.ediv_add_emod q.num q.den
  have key : q * ((q.den : ℕ) : ℚ) = (q.num : ℚ) := by
    have h1 : ((q.num : ℚ) / ((q.den : ℕ) : ℚ)) * ((q.den : ℕ) : ℚ) = (q.num : ℚ) :=
      div_mul_cancel₀ _ hdn
    rw [Rat.num_div_den q] at h1
    exact h1
  have hsumQ : ((q.den : ℕ) : ℚ) * ((Int.ediv q.num q.den : ℤ) : ℚ)
      + ((Int.emod q.num q.den : ℤ) : ℚ) = (q.num : ℚ) := by
    exact_mod_cast hsum
  have hmodQ : (0 : ℚ) ≤ ((Int.emod q.num q.den : ℤ) : ℚ) := by exact_mod_cast hmod
  have hltQ : ((Int.emod q.num q.den : ℤ) : ℚ) < ((q.den : ℕ) : ℚ) := by exact_mod_cast hlt
  symm
  rw [Int.floor_eq_iff]
  unfold ratFloor
  constructor
  · rw [← mul_le_mul_right hdp, key]
    ring_nf
    ring_nf at hsumQ
    linarith
  · rw [← mul_lt_mul_right hdp, key]
    ring_nf
    ring_nf at hsumQ
    linarith

lemma floor_le_roundHE (q : ℚ) : ⌊q⌋ ≤ roundHE q := by
  unfold roundHE
  rw [ratFloor_eq_floor]
  split
  · exact le_refl _
  · split
    · omega
    · split
      · exact le_refl _
      · omega

lemma roundHE_le_floor_add_one (q : ℚ) : roundHE q ≤ ⌊q⌋ + 1 := by
  unfold roundHE
  rw [ratFloor_eq_floor]
  split
  · omega
  · split
    · omega
    · split
      · omega
      · omega

lemma roundHE_le_of_le {q : ℚ} {n : ℤ} (h : q ≤ n) : roundHE q ≤ n := by
  rcases lt_or_eq_of_le (Int.floor_le_floor h) with hf | hf
  · have : ⌊(n : ℚ)⌋ = n := Int.floor_intCast n
    have := roundHE_le_floor_add_one q
    omega
  · have hn : ⌊(n : ℚ)⌋ = n := Int.floor_intCast n
    have hq : ⌊q⌋ = n := by rw [hf, hn]
    have hfr : q - ⌊q⌋ < 1 / 2 ∨ q - ⌊q⌋ = 0 := by
      left
      rw [hq]
      have : q - n ≤ 0 := by linarith
      linarith
    unfold roundHE
    rw [ratFloor_eq_floor, hq]
    split
    · exact le_refl _
    · rename_i hcond
      exfalso
      rcases hfr with hfr | hfr
      · rw [hq] at hfr
        exact hcond hfr
      · rw [hq] at hfr
        apply hcond
        rw [hfr]
        norm_num

lemma le_roundHE_of_le {q : ℚ} {n : ℤ} (h : (n : ℚ) ≤ q) : n ≤ roundHE q := by
  have : n ≤ ⌊q⌋ := Int.le_floor.mpr h
  have := floor_le_roundHE q
  omega

/-- `round4` maps `[a, b]` into itself when `a`, `b` are integer multiples
of `1/10000` — stated for the bounds we need. -/
lemma round4_bounds {q a b : ℚ} (ha : a ≤ q) (hb : q ≤ b)
    (han : ∃ m : ℤ, a = (m : ℚ) / 10000) (hbn : ∃ m : ℤ, b = (m : ℚ) / 10000) :
    a ≤ round4 q ∧ round4 q ≤ b := by
  obtain ⟨ma, hma⟩ := han
  obtain ⟨mb, hmb⟩ := hbn
  subst hma hmb
  constructor
  · have h1 : (ma : ℚ) ≤ q * 10000 := by linarith [(by linarith : (ma : ℚ) / 10000 * 10000 ≤ q * 10000)]
    have := le_roundHE_of_le h1
    unfold round4
    rw [div_le_div_iff_of_pos_right (by norm_num : (0:ℚ) < 10000)]
    exact_mod_cast this
  · have h1 : q * 10000 ≤ (mb : ℚ) := by nlinarith
    have := roundHE_le_of_le h1
    unfold round4
    rw [div_le_div_iff_of_pos_right (by norm_num : (0:ℚ) < 10000)]
    exact_mod_cast this

lemma mem_insertDescBy {key : α → ℚ} {x a : α} {l : List α} :
    a ∈ insertDescBy key x l ↔ a = x ∨ a ∈ l := by
  induction l with
  | nil => simp [insertDescBy]
  | cons y ys ih =>
    simp only [insertDescBy]
    split
    · simp
    · simp only [List.mem_cons, ih]
      tauto

lemma insertDescBy_perm (key : α → ℚ) (x : α) (l : List α) :
    List.Perm (insertDescBy key x l) (x :: l) := by
  induction l with
  | nil => simp [insertDescBy]
  | cons y ys ih =>
    simp only [insertDescBy]
    split
    · exact List.Perm.refl _
    · exact (List.Perm.cons y ih).trans (List.Perm.swap x y ys)

lemma sortDescBy_perm (key : α → ℚ) (l : List α) : List.Perm (sortDescBy key l) l := by
  induction l with
  | nil => simp [sortDescBy]
  | cons x xs ih =>
    exact (insertDescBy_perm key x (sortDescBy key xs)).trans (List.Perm.cons x ih)

/-- Inserting `x` into a list that is pairwise ordered by the stable
descending relation keeps it so, provided `x` satisfies the tie-breaker
against every element it can tie with. -/
lemma pairwise_insertDescBy {key : α → ℚ} {S : α → α → Prop} {x : α} {l : List α}
    (hl : l.Pairwise (fun a b => key b < key a ∨ (key a = key b ∧ S a b)))
    (hx : ∀ y ∈ l, key x = key y → S x y) :
    (insertDescBy key x l).Pairwise (fun a b => key b < key a ∨ (key a = key b ∧ S a b)) := by
  induction l with
  | nil => simp [insertDescBy]
  | cons y ys ih =>
    rw [List.pairwise_cons] at hl
    obtain ⟨hy, hys⟩ := hl
    simp only [insertDescBy]
    split
    · rename_i hle
      refine List.Pairwise.cons ?_ (List.Pairwise.cons hy hys)
      intro z hz
      rcases List.mem_cons.mp hz with rfl | hzys
      · rcases lt_or_eq_of_le hle with h | h
        · exact Or.inl h
        · exact Or.inr ⟨h.symm, hx z (List.mem_cons_self _ _) h.symm⟩
      · rcases hy z hzys with h | h
        · exact Or.inl (lt_of_lt_of_le h hle)
        · rcases lt_or_eq_of_le hle with h2 | h2
          · exact Or.inl (h.1 ▸ h2)
          · exact Or.inr ⟨h2.symm.trans h.1, hx z (List.mem_cons_of_mem _ hzys) (h2.symm.trans h.1)⟩
    · rename_i hgt
      push_neg at hgt
      refine List.Pairwise.cons ?_ (ih hys (fun z hz h => hx z (List.mem_cons_of_mem _ hz) h))
      intro z hz
      rcases mem_insertDescBy.mp hz with rfl | hzys
      · exact Or.inl hgt
      · exact hy z hzys

/-- Stability of `sortDescBy`: if the input already satisfies the
tie-breaking relation `S` on every pair of equal keys (in input order),
the output is pairwise ordered by key descending with ties ordered by
`S`. -/
lemma sortDescBy_pairwise (key : α → ℚ) (S : α → α → Prop) {l : List α}
    (h : l.Pairwise (fun a b => key a = key b → S a b)) :
    (sortDescBy key l).Pairwise (fun a b => key b < key a ∨ (key a = key b ∧ S a b)) := by
  induction l with
  | nil => simp [sortDescBy]
  | cons x xs ih =>
    rw [List.pairwise_cons] at h
    obtain ⟨hx, hxs⟩ := h
    exact pairwise_insertDescBy (ih hxs)
      (fun y hy => hx y ((sortDescBy_perm key xs).mem_iff.mp hy))

lemma mem_sortDescBy {key : α → ℚ} {a : α} {l : List α} :
    a ∈ sortDescBy key l ↔ a ∈ l :=
  (sortDescBy_perm key l).mem_iff

/-! ### Counting lemmas for cluster sizes -/

lemma countP_lt_succ (l : List ℕ) (n : ℕ) :
    l.countP (fun x => x < n + 1) = l.countP (fun x => x < n) + l.countP (fun x => x = n) := by
  induction l with
  | nil => simp
  | cons a l ih =>
    simp only [List.countP_cons, ih]
    rcases Nat.lt_trichotomy a n with h | h | h
    · have h1 : a < n + 1 := Nat.lt_succ_of_lt h
      have h2 : a ≠ n := Nat.ne_of_lt h
      simp only [h1, h, h2, if_pos, decide_eq_true_eq]
      simp [h1, h, h2]
      omega
    · subst h
      simp [Nat.lt_succ_self, lt_irrefl]
      omega
    · have h1 : ¬ a < n + 1 := by omega
      have h2 : ¬ a < n := by omega
      have h3 : a ≠ n := by omega
      simp [h1, h2, h3]

lemma sum_range_countP_eq (l : List ℕ) (n : ℕ) :
    ((List.range n).map (fun cid => l.countP (fun x => x = cid))).sum
      = l.countP (fun x => x < n) := by
  induction n with
  | zero => simp
  | succ n ih =>
    rw [List.range_succ, List.map_append, List.sum_append, ih]
    simp [countP_lt_succ]

lemma sum_range_countP (l : List ℕ) (n : ℕ) (h : ∀ x ∈ l, x < n) :
    ((List.range n).map (fun cid => l.countP (fun x => x = cid))).sum = l.length := by
  rw [sum_range_countP_eq]
  exact List.countP_eq_length.mpr (fun a ha => decide_eq_true (h a ha))

lemma sum_map_sortDescBy (key : α → ℚ) (f : α → ℕ) (l : List α) :
    ((sortDescBy key l).map f).sum = (l.map f).sum :=
  ((sortDescBy_perm key l).map f).sum_eq

/-! ### Lemmas about `analyze_batch` -/

lemma batchRecord_text_id (scoreF : Option String → Option SentimentResult)
    (i : ℕ) (t : Option String) : (batchRecord scoreF i t).text_id = i := by
  unfold batchRecord
  cases scoreF t <;> rfl

lemma batchRecord_original_text (scoreF : Option String → Option SentimentResult)
    (i : ℕ) (t : Option String) : (batchRecord scoreF i t).original_text = t := by
  unfold batchRecord
  cases scoreF t <;> rfl

lemma batchRecord_of_fail {scoreF : Option String → Option SentimentResult}
    {i : ℕ} {t : Option String} (h : scoreF t = none) :
    (batchRecord scoreF i t).result = zeroSentiment := by
  unfold batchRecord
  rw [h]

/-- With a positive batch size the chunked loop of `analyze_batch` is the
straightforward enumeration of the input. -/
lemma analyzeBatchAux_eq (scoreF : Option String → Option SentimentResult)
    {bs : ℕ} (hbs : 0 < bs) :
    ∀ (fuel i : ℕ) (l : List (Option String)), l.length ≤ fuel →
      analyzeBatchAux scoreF bs fuel i l
        = (l.enumFrom i).map (fun p => batchRecord scoreF p.1 p.2) := by
  intro fuel
  induction fuel with
  | zero =>
    intro i l hl
    rw [Nat.le_zero, List.length_eq_zero] at hl
    subst hl
    rfl
  | succ fuel ih =>
    intro i l hl
    match l with
    | [] => rfl
    | c :: rest =>
      show (((c :: rest).take bs).enumFrom i).map _ ++ analyzeBatchAux scoreF bs fuel (i + bs) ((c :: rest).drop bs) = _
      rcases le_or_lt (c :: rest).length bs with hle | hlt
      · rw [List.take_of_length_le hle, List.drop_eq_nil_of_le hle]
        show _ ++ analyzeBatchAux scoreF bs fuel (i + bs) [] = _
        rw [show analyzeBatchAux scoreF bs fuel (i + bs) [] = [] from by cases fuel <;> rfl]
        rw [List.append_nil]
      · have hdrop : ((c :: rest).drop bs).length ≤ fuel := by
          rw [List.length_drop, List.length_cons]
          simp only [List.length_cons] at hl
          omega
        have hmin : ((c :: rest).take bs).length = bs := by
          rw [List.length_take]
          omega
        rw [ih (i + bs) _ hdrop]
        conv_rhs => rw [← List.take_append_drop bs (c :: rest)]
        rw [List.enumFrom_append, List.map_append, hmin]

/-! ### Lemmas about `analyze_sentiment` -/

lemma cleanText_of_falsy {t : Option String} (h : pyFalsy t = true) :
    cleanText t = "" := by
  cases t with
  | none => rfl
  | some s =>
    have : s = "" := by
      simpa [pyFalsy] using h
    subst this
    decide

lemma roundHE_zero : roundHE 0 = 0 := by
  unfold roundHE
  rw [ratFloor_eq_floor]
  norm_num

lemma round4_zero : round4 0 = 0 := by
  unfold round4
  rw [show ((0 : ℚ) * 10000) = 0 from by norm_num, roundHE_zero]
  norm_num

/-- If both estimators report 0 on the cleaned text, the result is the
zero/Neutral/zero-confidence triple. -/
lemma sentiment_zero_of_estimators_zero (V : String → ℚ) (TB : String → ℚ × ℚ)
    (t : Option String) (vw tw : ℚ)
    (hv : analyzeVader V (cleanText t) = 0)
    (hp : (analyzeTextblob TB (cleanText t)).1 = 0) :
    (analyzeSentiment V TB t vw tw).score = 0 ∧
    (analyzeSentiment V TB t vw tw).label = "Neutral" ∧
    (analyzeSentiment V TB t vw tw).confidence = 0 := by
  unfold analyzeSentiment
  split
  · exact ⟨rfl, rfl, rfl⟩
  · dsimp only
    rw [hv, hp]
    refine ⟨?_, ?_, ?_⟩
    · show round4 (0 * vw + 0 * tw) = 0
      rw [zero_mul, zero_mul, add_zero, round4_zero]
    · show (if (0 : ℚ) * vw + 0 * tw ≥ 5 / 100 then "Positive"
        else if (0 : ℚ) * vw + 0 * tw ≤ -(5 / 100) then "Negative" else "Neutral") = "Neutral"
      rw [if_neg (by norm_num), if_neg (by norm_num)]
    · show round4 (min (|(0 : ℚ) * vw + 0 * tw| * _) 1) = 0
      rw [zero_mul, zero_mul, add_zero, abs_zero, zero_mul,
        min_eq_left zero_le_one, round4_zero]

lemma roundHE_eq_low {q : ℚ} {n : ℤ} (hf : ⌊q⌋ = n) (h : q - n < 1 / 2) :
    roundHE q = n := by
  unfold roundHE
  rw [ratFloor_eq_floor, hf, if_pos h]

lemma roundHE_eq_high {q : ℚ} {n : ℤ} (hf : ⌊q⌋ = n) (h : q - n > 1 / 2) :
    roundHE q = n + 1 := by
  unfold roundHE
  rw [ratFloor_eq_floor, hf, if_neg (by linarith), if_pos h]

lemma round4_eq_low {q : ℚ} {n : ℤ} (hf : ⌊q * 10000⌋ = n) (h : q * 10000 - n < 1 / 2) :
    round4 q = n / 10000 := by
  unfold round4
  rw [roundHE_eq_low hf h]

lemma round4_eq_high {q : ℚ} {n : ℤ} (hf : ⌊q * 10000⌋ = n) (h : q * 10000 - n > 1 / 2) :
    round4 q = ((n : ℚ) + 1) / 10000 := by
  unfold round4
  rw [roundHE_eq_high hf h]
  push_cast
  ring

lemma round3_eq_low {q : ℚ} {n : ℤ} (hf : ⌊q * 1000⌋ = n) (h : q * 1000 - n < 1 / 2) :
    round3 q = n / 1000 := by
  unfold round3
  rw [roundHE_eq_low hf h]

lemma round3_eq_high {q : ℚ} {n : ℤ} (hf : ⌊q * 1000⌋ = n) (h : q * 1000 - n > 1 / 2) :
    round3 q = ((n : ℚ) + 1) / 1000 := by
  unfold round3
  rw [roundHE_eq_high hf h]
  push_cast
  ring

lemma round1_eq_low {q : ℚ} {n : ℤ} (hf : ⌊q * 10⌋ = n) (h : q * 10 - n < 1 / 2) :
    round1 q = n / 10 := by
  unfold round1
  rw [roundHE_eq_low hf h]

lemma round1_eq_high {q : ℚ} {n : ℤ} (hf : ⌊q * 10⌋ = n) (h : q * 10 - n > 1 / 2) :
    round1 q = ((n : ℚ) + 1) / 10 := by
  unfold round1
  rw [roundHE_eq_high hf h]
  push_cast
  ring

/-- `analyze_sentiment` on a non-falsy input, written out in terms of the
two estimator outputs on the cleaned text. -/
lemma analyzeSentiment_eval {V : String → ℚ} {TB : String → ℚ × ℚ}
    {t : Option String} {vw tw c p s : ℚ}
    (hfal : pyFalsy t = false)
    (hv : analyzeVader V (cleanText t) = c)
    (htb : analyzeTextblob TB (cleanText t) = (p, s)) :
    analyzeSentiment V TB t vw tw =
      ⟨round4 (c * vw + p * tw),
       (if c * vw + p * tw ≥ 5 / 100 then "Positive"
        else if c * vw + p * tw ≤ -(5 / 100) then "Negative" else "Neutral"),
       round4 (min (|c * vw + p * tw| * (1 - |c - p| / 2)) 1),
       round4 c, round4 p, round4 s⟩ := by
  unfold analyzeSentiment
  rw [if_neg (by simp [hfal])]
  dsimp only
  rw [hv, htb]

/-- `analyze_sentiment` on a falsy input is the zero record. -/
lemma analyzeSentiment_falsy {V : String → ℚ} {TB : String → ℚ × ℚ}
    {t : Option String} {vw tw : ℚ} (hfal : pyFalsy t = true) :
    analyzeSentiment V TB t vw tw = zeroSentiment := by
  unfold analyzeSentiment
  rw [if_pos hfal]

lemma combinedScore_falsy {V : String → ℚ} {TB : String → ℚ × ℚ}
    {t : Option String} {vw tw : ℚ} (hfal : pyFalsy t = true) :
    combinedScore V TB t vw tw = 0 := by
  unfold combinedScore
  rw [if_pos hfal]

lemma combinedScore_eval {V : String → ℚ} {TB : String → ℚ × ℚ}
    {t : Option String} {vw tw : ℚ} (hfal : pyFalsy t = false) :
    combinedScore V TB t vw tw
      = analyzeVader V (cleanText t) * vw + (analyzeTextblob TB (cleanText t)).1 * tw := by
  unfold combinedScore
  rw [if_neg (by simp [hfal])]

/-- The label field of `analyze_sentiment` on a non-falsy input. -/
lemma analyzeSentiment_label {V : String → ℚ} {TB : String → ℚ × ℚ}
    {t : Option String} {vw tw : ℚ} (hfal : pyFalsy t = false) :
    (analyzeSentiment V TB t vw tw).label =
      (if analyzeVader V (cleanText t) * vw + (analyzeTextblob TB (cleanText t)).1 * tw ≥ 5 / 100
       then "Positive"
       else if analyzeVader V (cleanText t) * vw + (analyzeTextblob TB (cleanText t)).1 * tw ≤ -(5 / 100)
       then "Negative" else "Neutral") := by
  unfold analyzeSentiment
  rw [if_neg (by simp [hfal])]

/-! ### Lemmas about the topic assigner -/

/-- The implementation's relevance computation agrees with the
specification's formula on non-empty text and non-empty keyword list. -/
lemma calcTopicRelevance_eq_spec (text : String) (keywords : List String)
    (ht : text ≠ "") (hk : keywords ≠ []) :
    calcTopicRelevance text keywords = relevanceSpec text keywords := by
  unfold calcTopicRelevance relevanceSpec
  rw [if_neg (by push_neg; exact ⟨ht, hk⟩)]
  have hcount : keywords.countP (fun k => pyLowerS k ∈ (splitPyS (pyLowerS text)).dedup)
      = (keywords.filter (fun k => pyLowerS k ∈ (splitPyS (pyLowerS text)).toFinset)).length := by
    rw [List.countP_eq_length_filter]
    congr 1
  have hcard : ((splitPyS (pyLowerS text)).dedup.length : ℚ)
      = ((splitPyS (pyLowerS text)).toFinset.card : ℚ) := by
    rw [List.card_toFinset]
  dsimp only
  rw [hcount, hcard]

lemma mem_docCandidates {topics : List Topic} {d : ℕ} {cleaned : String} {a : Assignment}
    (ha : a ∈ docCandidates topics d cleaned) :
    ∃ tp ∈ topics, a.document_id = d ∧ a.topic_id = tp.topic_id ∧
      a.relevance_score = calcTopicRelevance cleaned tp.keywords ∧
      a.relevance_score > 1 / 10 := by
  obtain ⟨tp, htp, hf⟩ := List.mem_filterMap.mp ha
  refine ⟨tp, htp, ?_⟩
  by_cases hr : calcTopicRelevance cleaned tp.keywords > 1 / 10
  · rw [if_pos hr] at hf
    cases hf
    exact ⟨rfl, rfl, rfl, hr⟩
  · rw [if_neg hr] at hf
    cases hf

lemma mem_perDocAssignments {tokW : String → List String} {lem : String → String}
    {baseStop : List String} {topics : List Topic} {d : ℕ} {t : Option String} {a : Assignment}
    (ha : a ∈ perDocAssignments tokW lem baseStop topics d t) :
    preprocessText tokW lem baseStop t ≠ "" ∧
    ∃ tp ∈ topics, a.document_id = d ∧ a.topic_id = tp.topic_id ∧
      a.relevance_score = calcTopicRelevance (preprocessText tokW lem baseStop t) tp.keywords ∧
      a.relevance_score > 1 / 10 := by
  unfold perDocAssignments at ha
  split at ha
  · cases ha
  · dsimp only at ha
    split at ha
    · cases ha
    · rename_i hne
      have h1 : a ∈ docCandidates topics d (preprocessText tokW lem baseStop t) :=
        mem_sortDescBy.mp (List.mem_of_mem_take ha)
      exact ⟨hne, mem_docCandidates h1⟩

lemma perDocAssignments_docid {tokW : String → List String} {lem : String → String}
    {baseStop : List String} {topics : List Topic} {d : ℕ} {t : Option String} {a : Assignment}
    (ha : a ∈ perDocAssignments tokW lem baseStop topics d t) :
    a.document_id = d := by
  obtain ⟨-, tp, -, h, -⟩ := mem_perDocAssignments ha
  exact h

lemma perDocAssignments_length (tokW : String → List String) (lem : String → String)
    (baseStop : List String) (topics : List Topic) (d : ℕ) (t : Option String) :
    (perDocAssignments tokW lem baseStop topics d t).length ≤ 3 := by
  unfold perDocAssignments
  split
  · simp
  · dsimp only
    split
    · simp
    · exact List.length_take_le _ _

lemma docCandidates_topicId_mem {topics : List Topic} {d : ℕ} {cleaned : String} {a : Assignment}
    (ha : a ∈ docCandidates topics d cleaned) :
    a.topic_id ∈ topics.map Topic.topic_id := by
  obtain ⟨tp, htp, -, hid, -⟩ := mem_docCandidates ha
  rw [hid]
  exact List.mem_map_of_mem _ htp

/-- Candidates are generated in topics-list order, so their positions
(`topicPos`) are strictly increasing along the candidate list. -/
lemma docCandidates_pairwise_pos {topics : List Topic}
    (hnd : (topics.map Topic.topic_id).Nodup) (d : ℕ) (cleaned : String) :
    (docCandidates topics d cleaned).Pairwise
      (fun a b => topicPos topics a.topic_id < topicPos topics b.topic_id) := by
  induction topics with
  | nil => exact List.Pairwise.nil
  | cons t ts ih =>
    rw [List.map_cons, List.nodup_cons] at hnd
    obtain ⟨hnotin, hnd'⟩ := hnd
    have hshift : ∀ b : Assignment, b.topic_id ∈ ts.map Topic.topic_id →
        topicPos (t :: ts) b.topic_id = topicPos ts b.topic_id + 1 := by
      intro b hb
      unfold topicPos
      rw [List.map_cons]
      exact List.indexOf_cons_ne _ (fun heq => hnotin (heq ▸ hb))
    have htail : (docCandidates ts d cleaned).Pairwise
        (fun a b => topicPos (t :: ts) a.topic_id < topicPos (t :: ts) b.topic_id) := by
      refine (ih hnd').imp_of_mem ?_
      intro a b hamem hbmem h
      rw [hshift a (docCandidates_topicId_mem hamem), hshift b (docCandidates_topicId_mem hbmem)]
      omega
    show (List.filterMap _ (t :: ts)).Pairwise _
    by_cases hr : calcTopicRelevance cleaned t.keywords > 1 / 10
    · rw [List.filterMap_cons_some (by rw [if_pos hr])]
      refine List.Pairwise.cons ?_ htail
      intro b hb
      have hb' : b.topic_id ∈ ts.map Topic.topic_id := docCandidates_topicId_mem hb
      have h0 : topicPos (t :: ts) t.topic_id = 0 := by
        unfold topicPos
        rw [List.map_cons]
        exact List.indexOf_cons_self _ _
      rw [show (⟨d, t.topic_id, t.topic_name, calcTopicRelevance cleaned t.keywords,
        getMatchingKeywords cleaned t.keywords⟩ : Assignment).topic_id = t.topic_id from rfl, h0,
        hshift b hb']
      omega
    · rw [List.filterMap_cons_none (by rw [if_neg hr])]
      exact htail

/-- Within one document the assignment list is pairwise ordered by
relevance descending with ties in topics-list order. -/
lemma perDocAssignments_pairwise {tokW : String → List String} {lem : String → String}
    {baseStop : List String} {topics : List Topic}
    (hnd : (topics.map Topic.topic_id).Nodup) (d : ℕ) (t : Option String) :
    (perDocAssignments tokW lem baseStop topics d t).Pairwise
      (fun a b => b.relevance_score < a.relevance_score ∨
        (a.relevance_score = b.relevance_score ∧
         topicPos topics a.topic_id < topicPos topics b.topic_id)) := by
  unfold perDocAssignments
  split
  · exact List.Pairwise.nil
  · dsimp only
    split
    · exact List.Pairwise.nil
    · refine List.Pairwise.sublist (List.take_sublist _ _) (sortDescBy_pairwise _ _ ?_)
      refine (docCandidates_pairwise_pos hnd d _).imp ?_
      intro a b h
      exact fun _ => h

lemma countP_flatMap_block {d : ℕ} (f : ℕ × Option String → List Assignment)
    (hid : ∀ p, ∀ a ∈ f p, a.document_id = p.1)
    (L : List (ℕ × Option String)) (hd : ∀ p ∈ L, p.1 ≠ d) :
    (L.flatMap f).countP (fun a => a.document_id = d) = 0 := by
  rw [List.countP_eq_zero]
  intro a ha
  obtain ⟨p, hp, hap⟩ := List.mem_flatMap.mp ha
  have := hid p a hap
  simp only [decide_eq_true_eq]
  rw [this]
  exact hd p hp

lemma countP_flatMap_le_three {d : ℕ} (f : ℕ × Option String → List Assignment)
    (hlen : ∀ p, (f p).length ≤ 3)
    (hid : ∀ p, ∀ a ∈ f p, a.document_id = p.1) :
    ∀ (L : List (ℕ × Option String)), (L.map Prod.fst).Nodup →
      (L.flatMap f).countP (fun a => a.document_id = d) ≤ 3 := by
  intro L
  induction L with
  | nil => simp
  | cons p L ih =>
    intro hnd
    rw [List.map_cons, List.nodup_cons] at hnd
    obtain ⟨hnotin, hnd'⟩ := hnd
    rw [List.flatMap_cons, List.countP_append]
    by_cases hp : p.1 = d
    · have hrest : (L.flatMap f).countP (fun a => a.document_id = d) = 0 := by
        apply countP_flatMap_block f hid
        intro q hq heq
        exact hnotin (by rw [hp, ← heq]; exact List.mem_map_of_mem _ hq)
      have hblock : (f p).countP (fun a => a.document_id = d) ≤ 3 :=
        le_trans (List.countP_le_length _) (hlen p)
      omega
    · have hblock : (f p).countP (fun a => a.document_id = d) = 0 := by
        rw [List.countP_eq_zero]
        intro a ha
        simp only [decide_eq_true_eq]
        rw [hid p a ha]
        exact hp
      have := ih hnd'
      omega

lemma enum_pairwise_fst_lt (l : List (Option String)) :
    l.enum.Pairwise (fun p q => p.1 < q.1) := by
  have h1 : (l.enum.map Prod.fst).Pairwise (· < ·) := by
    rw [List.enum_map_fst]
    exact List.pairwise_lt_range _
  exact (List.pairwise_map.mp h1)

lemma mem_enum_getD (l : List (Option String)) (p : ℕ × Option String) (h : p ∈ l.enum) :
    l.getD p.1 none = p.2 := by
  have h2 := List.mem_enum_iff_getElem?.mp h
  rw [List.getD_eq_getElem?_getD, h2]
  rfl

/-! ### Lemmas about `generate_topic_summary` -/

lemma valOf_addRelevance (acc : List (ℕ × List ℚ)) (dt : Assignment) (tid : ℕ) :
    valOf (addRelevance acc dt) tid
      = valOf acc tid ++ (if dt.topic_id = tid then [dt.relevance_score] else []) := by
  unfold addRelevance valOf
  by_cases hmem : acc.any (fun p => p.1 = dt.topic_id)
  · rw [if_pos hmem]
    rw [List.find?_map]
    have hcomp : ((fun p : ℕ × List ℚ => decide (p.1 = tid)) ∘
        (fun p : ℕ × List ℚ => if p.1 = dt.topic_id then (p.1, p.2 ++ [dt.relevance_score]) else p))
        = (fun p : ℕ × List ℚ => decide (p.1 = tid)) := by
      funext p
      show decide ((if p.1 = dt.topic_id then (p.1, p.2 ++ [dt.relevance_score]) else p).1 = tid)
        = decide (p.1 = tid)
      split <;> rfl
    rw [hcomp]
    cases hfind : acc.find? (fun p => p.1 = tid) with
    | none =>
      have hne : dt.topic_id ≠ tid := by
        intro heq
        obtain ⟨p, hp, hpe⟩ := List.any_eq_true.mp hmem
        have := List.find?_eq_none.mp hfind p hp
        simp only [decide_eq_true_eq] at hpe this
        exact this (by rw [hpe, heq])
      rw [if_neg hne]
      rfl
    | some q =>
      have hq : q.1 = tid := by
        have := List.find?_some hfind
        simpa using this
      by_cases hdt : dt.topic_id = tid
      · rw [if_pos hdt]
        show ((if q.1 = dt.topic_id then (q.1, q.2 ++ [dt.relevance_score]) else q).2) = q.2 ++ _
        rw [if_pos (by rw [hq, hdt])]
      · rw [if_neg hdt]
        show ((if q.1 = dt.topic_id then (q.1, q.2 ++ [dt.relevance_score]) else q).2) = q.2 ++ []
        rw [if_neg (by rw [hq]; exact fun h => hdt h.symm), List.append_nil]
  · rw [if_neg hmem]
    cases hfind : acc.find? (fun p => p.1 = tid) with
    | none =>
      rw [List.find?_append, hfind]
      simp only [Option.none_or]
      by_cases hdt : dt.topic_id = tid
      · rw [if_pos hdt]
        rw [show (([(dt.topic_id, [dt.relevance_score])] : List (ℕ × List ℚ)).find?
            (fun p => p.1 = tid)) = some (dt.topic_id, [dt.relevance_score]) from by
          rw [List.find?_cons_of_pos]
          simpa using hdt]
        rfl
      · rw [if_neg hdt]
        rw [show (([(dt.topic_id, [dt.relevance_score])] : List (ℕ × List ℚ)).find?
            (fun p => p.1 = tid)) = none from by
          rw [List.find?_cons_of_neg]
          · rfl
          · simpa using hdt]
        rfl
    | some q =>
      rw [List.find?_append, hfind]
      rw [show ∀ x : Option (ℕ × List ℚ), (some q).or x = some q from fun x => rfl]
      by_cases hdt : dt.topic_id = tid
      · exfalso
        have hq : q.1 = tid := by
          have := List.find?_some hfind
          simpa using this
        have hqmem : q ∈ acc := List.mem_of_find?_eq_some hfind
        rw [List.any_eq_true] at hmem
        push_neg at hmem
        have := hmem q hqmem
        exact this (by rw [hq, hdt]; simp)
      · rw [if_neg hdt, List.append_nil]

lemma foldl_addRelevance_valOf (tid : ℕ) (dts : List Assignment) :
    ∀ acc : List (ℕ × List ℚ),
      valOf (dts.foldl addRelevance acc) tid
        = valOf acc tid
          ++ ((dts.filter (fun a => a.topic_id = tid)).map (fun a => a.relevance_score)) := by
  induction dts with
  | nil =>
    intro acc
    simp
  | cons dt dts ih =>
    intro acc
    rw [List.foldl_cons, ih, valOf_addRelevance, List.filter_cons]
    by_cases hdt : dt.topic_id = tid
    · rw [if_pos hdt, if_pos (by simpa using hdt), List.map_cons, List.append_assoc]
      rfl
    · rw [if_neg hdt, if_neg (by simpa using hdt), List.append_nil]

lemma topicRelevances_snd_ne_nil (dts : List Assignment) :
    ∀ p ∈ topicRelevances dts, p.2 ≠ [] := by
  unfold topicRelevances
  suffices h : ∀ acc : List (ℕ × List ℚ), (∀ p ∈ acc, p.2 ≠ []) →
      ∀ p ∈ dts.foldl addRelevance acc, p.2 ≠ [] by
    exact h [] (by simp)
  induction dts with
  | nil =>
    intro acc hacc
    simpa using hacc
  | cons dt dts ih =>
    intro acc hacc
    rw [List.foldl_cons]
    apply ih
    intro p hp
    unfold addRelevance at hp
    split at hp
    · obtain ⟨q, hq, rfl⟩ := List.mem_map.mp hp
      split
      · simp
      · exact hacc q hq
    · rcases List.mem_append.mp hp with h | h
      · exact hacc p h
      · rw [List.mem_singleton.mp h]
        simp

/-- `topic_relevances.get(tid, [0])` in terms of the plain filtered list:
`[0]` when the topic has no assignments, otherwise its relevance scores
in order. -/
lemma relevancesOf_eq (dts : List Assignment) (tid : ℕ) :
    relevancesOf dts tid
      = if (dts.filter (fun a => a.topic_id = tid)) = [] then [0]
        else (dts.filter (fun a => a.topic_id = tid)).map (fun a => a.relevance_score) := by
  have hval : valOf (topicRelevances dts) tid
      = (dts.filter (fun a => a.topic_id = tid)).map (fun a => a.relevance_score) := by
    unfold topicRelevances
    rw [foldl_addRelevance_valOf]
    rfl
  unfold relevancesOf
  cases hfind : (topicRelevances dts).find? (fun p => p.1 = tid) with
  | none =>
    have h0 : valOf (topicRelevances dts) tid = [] := by
      unfold valOf
      rw [hfind]
      rfl
    rw [h0] at hval
    rw [if_pos (by
      rcases hflt : dts.filter (fun a => a.topic_id = tid) with _ | ⟨x, xs⟩
      · exact hflt
      · rw [hflt] at hval
        cases hval)]
    rfl
  | some q =>
    have hq2 : q.2 = (dts.filter (fun a => a.topic_id = tid)).map (fun a => a.relevance_score) := by
      have : valOf (topicRelevances dts) tid = q.2 := by
        unfold valOf
        rw [hfind]
        rfl
      rw [← this, hval]
    have hne : q.2 ≠ [] :=
      topicRelevances_snd_ne_nil dts q (List.mem_of_find?_eq_some hfind)
    rw [if_neg (by
      intro hflt
      rw [hflt] at hq2
      exact hne (by rw [hq2]; rfl))]
    exact hq2

lemma topicDocCount_eq_countP (dts : List Assignment) (tid : ℕ) :
    topicDocCount dts tid = dts.countP (fun a => a.topic_id = tid) := by
  unfold topicDocCount
  induction dts with
  | nil => rfl
  | cons dt dts ih =>
    rw [List.map_cons, List.count_cons, List.countP_cons, ih]
    by_cases h : dt.topic_id = tid
    · simp [h]
    · simp [h]

/-! ### Lemmas towards conditional idempotence of `clean_text` -/

lemma pyLower_snd_not_key : ∀ p ∈ lowerPairs, lowerPairs.find? (fun q => q.1 = p.2) = none := by
  decide

lemma pyLower_idem (c : Char) : pyLower (pyLower c) = pyLower c := by
  unfold pyLower
  cases hf : lowerPairs.find? (fun p => p.1 = c) with
  | none =>
    simp only [hf, Option.map_none', Option.getD_none]
  | some p =>
    have hp : p ∈ lowerPairs := List.mem_of_find?_eq_some hf
    simp only [hf, Option.map_some', Option.getD_some]
    rw [pyLower_snd_not_key p hp]
    rfl

lemma pyLower_space : pyLower ' ' = ' ' := by decide

lemma mem_reSubAux {m : List Char → Option ℕ} :
    ∀ {fuel : ℕ} {s : List Char} {c : Char}, c ∈ reSubAux m fuel s → c ∈ s := by
  intro fuel
  induction fuel with
  | zero => intro s c h; exact h
  | succ fuel ih =>
    intro s c h
    match s with
    | [] => cases h
    | d :: rest =>
      unfold reSubAux at h
      match hm : m (d :: rest) with
      | some k =>
        rw [hm] at h
        exact List.mem_of_mem_drop (ih h)
      | none =>
        rw [hm] at h
        rcases List.mem_cons.mp h with rfl | h2
        · exact List.mem_cons_self _ _
        · exact List.mem_cons_of_mem _ (ih h2)

lemma mem_collapseWsAux :
    ∀ {b : Bool} {s : List Char} {c : Char}, c ∈ collapseWsAux b s → c ∈ s ∨ c = ' ' := by
  intro b s
  induction s generalizing b with
  | nil => intro c h; cases h
  | cons d rest ih =>
    intro c h
    unfold collapseWsAux at h
    split at h
    · split at h
      · rcases ih h with h2 | h2
        · exact Or.inl (List.mem_cons_of_mem _ h2)
        · exact Or.inr h2
      · rcases List.mem_cons.mp h with rfl | h2
        · exact Or.inr rfl
        · rcases ih h2 with h3 | h3
          · exact Or.inl (List.mem_cons_of_mem _ h3)
          · exact Or.inr h3
    · rcases List.mem_cons.mp h with rfl | h2
      · exact Or.inl (List.mem_cons_self _ _)
      · rcases ih h2 with h3 | h3
        · exact Or.inl (List.mem_cons_of_mem _ h3)
        · exact Or.inr h3

lemma mem_splitPyAux_token :
    ∀ {acc s : List Char} {tok : List Char}, tok ∈ splitPyAux acc s →
      ∀ {c : Char}, c ∈ tok → c ∈ acc ∨ c ∈ s := by
  intro acc s
  induction s generalizing acc with
  | nil =>
    intro tok htok c hc
    unfold splitPyAux at htok
    split at htok
    · cases htok
    · rw [List.mem_singleton.mp htok] at hc
      exact Or.inl (List.mem_reverse.mp hc)
  | cons d rest ih =>
    intro tok htok c hc
    unfold splitPyAux at htok
    split at htok
    · split at htok
      · rcases ih htok hc with h | h
        · cases h
        · exact Or.inr (List.mem_cons_of_mem _ h)
      · rcases List.mem_cons.mp htok with rfl | h2
        · exact Or.inl (List.mem_reverse.mp hc)
        · rcases ih h2 hc with h | h
          · cases h
          · exact Or.inr (List.mem_cons_of_mem _ h)
    · rcases ih htok hc with h | h
      · rcases List.mem_cons.mp h with rfl | h3
        · exact Or.inr (List.mem_cons_self _ _)
        · exact Or.inl h3
      · exact Or.inr (List.mem_cons_of_mem _ h)

lemma mem_intersperse_sep {ws : List (List Char)} {sep piece : List Char}
    (h : piece ∈ ws.intersperse sep) : piece ∈ ws ∨ piece = sep := by
  induction ws with
  | nil => cases h
  | cons x xs ih =>
    match xs, h with
    | [], h => exact Or.inl h
    | y :: ys, h =>
      rcases List.mem_cons.mp h with rfl | h2
      · exact Or.inl (List.mem_cons_self _ _)
      · rcases List.mem_cons.mp h2 with rfl | h3
        · exact Or.inr rfl
        · rcases ih h3 with h4 | h4
          · exact Or.inl (List.mem_cons_of_mem _ h4)
          · exact Or.inr h4

lemma mem_joinWords {ws : List (List Char)} {c : Char} (h : c ∈ joinWords ws) :
    (∃ tok ∈ ws, c ∈ tok) ∨ c = ' ' := by
  unfold joinWords at h
  obtain ⟨piece, hpiece, hcp⟩ := List.mem_flatten.mp h
  rcases mem_intersperse_sep hpiece with h2 | h2
  · exact Or.inl ⟨piece, h2, hcp⟩
  · rw [h2] at hcp
    exact Or.inr (List.mem_singleton.mp hcp)

lemma mem_stripPy {s : List Char} {c : Char} (h : c ∈ stripPy s) : c ∈ s := by
  unfold stripPy at h
  rw [List.mem_reverse] at h
  have h1 := (List.dropWhile_sublist _).mem h
  rw [List.mem_reverse] at h1
  exact (List.dropWhile_sublist _).mem h1

/-- Every character of a cleaned text is a fixed point of `pyLower`
(lowercasing happened first and no later stage introduces uppercase). -/
lemma cleanChars_lower_fixed {s : List Char} {c : Char} (h : c ∈ cleanChars s) :
    pyLower c = c := by
  unfold cleanChars at h
  have h1 := mem_stripPy h
  rcases mem_joinWords h1 with ⟨tok, htok, hct⟩ | rfl
  · rcases mem_splitPyAux_token htok hct with h2 | h2
    · cases h2
    · have h3 := List.mem_of_mem_filter h2
      rcases mem_collapseWsAux h3 with h4 | rfl
      · have h5 := mem_reSubAux (mem_reSubAux (mem_reSubAux h4))
        obtain ⟨c0, -, rfl⟩ := List.mem_map.mp h5
        exact pyLower_idem c0
      · exact pyLower_space
  · exact pyLower_space

lemma lowerChars_fixed {l : List Char} (h : ∀ c ∈ l, pyLower c = c) :
    lowerChars l = l := by
  unfold lowerChars
  induction l with
  | nil => rfl
  | cons c rest ih =>
    rw [List.map_cons, h c (List.mem_cons_self _ _),
      ih (fun d hd => h d (List.mem_cons_of_mem _ hd))]

/-- A scanner is the identity when no position matches. -/
lemma reSubAux_id (m : List Char → Option ℕ) :
    ∀ (fuel : ℕ) (s : List Char), (∀ t, t <:+ s → m t = none) → reSubAux m fuel s = s := by
  intro fuel
  induction fuel with
  | zero => intro s h; rfl
  | succ fuel ih =>
    intro s h
    match s with
    | [] => rfl
    | c :: rest =>
      unfold reSubAux
      rw [h (c :: rest) (List.suffix_refl _)]
      rw [ih rest (fun t ht => h t (ht.trans (List.suffix_cons c rest)))]

lemma hasSub_of_suffix_take (pat : List Char) {s t : List Char} (hsuf : t <:+ s)
    (htake : t.take pat.length = pat) (hne : pat ≠ []) : hasSub pat s = true := by
  induction s with
  | nil =>
    exfalso
    have : t = [] := List.eq_nil_of_suffix_nil hsuf
    rw [this] at htake
    exact hne (by rw [← htake]; exact (List.take_nil).symm ▸ rfl)
  | cons c rest ih =>
    rcases List.suffix_cons_iff.mp hsuf with rfl | h2
    · unfold hasSub
      rw [Bool.or_eq_true, decide_eq_true_eq]
      exact Or.inl htake
    · unfold hasSub
      rw [Bool.or_eq_true]
      exact Or.inr (ih h2)

lemma urlMatch_none_of_noSub {y t : List Char}
    (h1 : hasSub ['h', 't', 't', 'p'] y = false)
    (h2 : hasSub ['w', 'w', 'w', '.'] y = false)
    (hsuf : t <:+ y) : urlMatchLen t = none := by
  unfold urlMatchLen
  rw [if_neg, if_neg]
  · rintro ⟨htake, -⟩
    rw [hasSub_of_suffix_take ['w', 'w', 'w', '.'] hsuf htake (by simp)] at h2
    cases h2
  · rintro ⟨htake, -⟩
    rw [hasSub_of_suffix_take ['h', 't', 't', 'p'] hsuf htake (by simp)] at h1
    cases h1

lemma mentionMatch_none_of_not_mem {y t : List Char}
    (h3 : ('@' : Char) ∉ y) (h4 : ('#' : Char) ∉ y)
    (hsuf : t <:+ y) : mentionMatchLen t = none := by
  match t with
  | [] => rfl
  | c :: rest =>
    rw [show mentionMatchLen (c :: rest)
      = (if (c = '@' ∨ c = '#') ∧ (rest.takeWhile isWordC).length ≥ 1 then
          some (1 + (rest.takeWhile isWordC).length) else none) from rfl]
    rw [if_neg]
    rintro ⟨hc | hc, -⟩
    · exact h3 (hsuf.subset (hc ▸ List.mem_cons_self _ _))
    · exact h4 (hsuf.subset (hc ▸ List.mem_cons_self _ _))

lemma emailMatch_none_of_not_mem {y t : List Char}
    (h3 : ('@' : Char) ∉ y) (hsuf : t <:+ y) : emailMatchLen t = none := by
  match t with
  | [] => rfl
  | c :: rest =>
    rw [show emailMatchLen (c :: rest)
      = (if ¬ isSpaceC c ∧ (((c :: rest).takeWhile (fun d => ¬ isSpaceC d)).drop 1).dropLast.contains '@' then
          some ((c :: rest).takeWhile (fun d => ¬ isSpaceC d)).length else none) from rfl]
    rw [if_neg]
    rintro ⟨-, hcont⟩
    have h5 : ('@' : Char) ∈ (((c :: rest).takeWhile (fun d => ¬ isSpaceC d)).drop 1).dropLast := by
      simpa using hcont
    have h6 : ('@' : Char) ∈ c :: rest := by
      have h7 := (List.dropLast_sublist _).mem h5
      have h8 := (List.drop_sublist _ _).mem h7
      exact (List.takeWhile_sublist _).mem h8
    exact h3 (hsuf.subset h6)

lemma splitPyAux_tokens :
    ∀ {s acc : List Char}, (∀ c ∈ acc, ¬ isSpaceC c) →
      ∀ tok ∈ splitPyAux acc s, tok ≠ [] ∧ ∀ c ∈ tok, ¬ isSpaceC c := by
  intro s
  induction s with
  | nil =>
    intro acc hacc tok htok
    unfold splitPyAux at htok
    split at htok
    · cases htok
    · rename_i hne
      rw [List.mem_singleton.mp htok]
      constructor
      · intro hrev
        exact hne (by rw [List.isEmpty_iff]; exact List.reverse_eq_nil_iff.mp hrev)
      · intro c hc
        exact hacc c (List.mem_reverse.mp hc)
  | cons d rest ih =>
    intro acc hacc tok htok
    unfold splitPyAux at htok
    split at htok
    · split at htok
      · exact ih (by intro c hc; cases hc) tok htok
      · rename_i hne
        rcases List.mem_cons.mp htok with rfl | h2
        · constructor
          · intro hrev
            exact hne (by rw [List.isEmpty_iff]; exact List.reverse_eq_nil_iff.mp hrev)
          · intro c hc
            exact hacc c (List.mem_reverse.mp hc)
        · exact ih (by intro c hc; cases hc) tok h2
    · rename_i hd
      refine ih ?_ tok htok
      intro c hc
      rcases List.mem_cons.mp hc with rfl | h3
      · simpa using hd
      · exact hacc c h3

lemma splitPyAux_append_word :
    ∀ (t : List Char), (∀ c ∈ t, ¬ isSpaceC c) →
      ∀ (acc r : List Char), splitPyAux acc (t ++ r) = splitPyAux (t.reverse ++ acc) r := by
  intro t
  induction t with
  | nil =>
    intro _ acc r
    simp
  | cons c t ih =>
    intro h acc r
    rw [List.cons_append]
    rw [show splitPyAux acc (c :: (t ++ r)) =
      (if isSpaceC c then
        if acc.isEmpty then splitPyAux [] (t ++ r)
        else acc.reverse :: splitPyAux [] (t ++ r)
      else splitPyAux (c :: acc) (t ++ r)) from rfl]
    rw [if_neg (by simpa using h c (List.mem_cons_self _ _))]
    rw [ih (fun d hd => h d (List.mem_cons_of_mem _ hd)) (c :: acc) r]
    rw [List.reverse_cons, List.append_assoc]
    rfl

lemma joinWords_cons₂ (t t' : List Char) (ts : List (List Char)) :
    joinWords (t :: t' :: ts) = t ++ ' ' :: joinWords (t' :: ts) := by
  unfold joinWords
  rfl

lemma joinWords_single (t : List Char) : joinWords [t] = t := by
  unfold joinWords
  show t ++ [] = t
  exact List.append_nil t

lemma splitPy_joinWords :
    ∀ {ts : List (List Char)}, (∀ tok ∈ ts, tok ≠ [] ∧ ∀ c ∈ tok, ¬ isSpaceC c) →
      splitPy (joinWords ts) = ts := by
  intro ts
  induction ts with
  | nil => intro _; rfl
  | cons t ts ih =>
    intro h
    have ht := h t (List.mem_cons_self _ _)
    match ts with
    | [] =>
      rw [joinWords_single]
      unfold splitPy
      rw [show t = t ++ [] from (List.append_nil t).symm,
        splitPyAux_append_word t ht.2 [] []]
      rw [List.append_nil, List.append_nil]
      show (if t.reverse.isEmpty then [] else [t.reverse.reverse]) = [t]
      rw [if_neg (by
        intro hempty
        rw [List.isEmpty_iff, List.reverse_eq_nil_iff] at hempty
        exact ht.1 hempty)]
      rw [List.reverse_reverse]
    | t' :: ts' =>
      rw [joinWords_cons₂]
      unfold splitPy
      rw [splitPyAux_append_word t ht.2 [] (' ' :: joinWords (t' :: ts'))]
      rw [List.append_nil]
      show splitPyAux t.reverse (' ' :: joinWords (t' :: ts')) = t :: t' :: ts'
      unfold splitPyAux
      rw [if_pos (by decide)]
      rw [if_neg (by
        intro hempty
        rw [List.isEmpty_iff, List.reverse_eq_nil_iff] at hempty
        exact ht.1 hempty)]
      rw [List.reverse_reverse]
      rw [show splitPyAux [] (joinWords (t' :: ts')) = splitPy (joinWords (t' :: ts')) from rfl]
      rw [ih (fun tok htok => h tok (List.mem_cons_of_mem _ htok))]

lemma reverse_joinWords_head :
    ∀ {ts : List (List Char)}, (∀ tok ∈ ts, tok ≠ [] ∧ ∀ c ∈ tok, ¬ isSpaceC c) →
      ts ≠ [] → ∃ c cs, (joinWords ts).reverse = c :: cs ∧ ¬ isSpaceC c := by
  intro ts
  induction ts with
  | nil => intro _ hne; exact absurd rfl hne
  | cons t ts ih =>
    intro h _
    have ht := h t (List.mem_cons_self _ _)
    match ts with
    | [] =>
      rw [joinWords_single]
      have hne : t.reverse ≠ [] := fun hrev => ht.1 (List.reverse_eq_nil_iff.mp hrev)
      obtain ⟨c, cs, hcs⟩ := List.exists_cons_of_ne_nil hne
      refine ⟨c, cs, hcs, ?_⟩
      have : c ∈ t.reverse := by rw [hcs]; exact List.mem_cons_self _ _
      exact ht.2 c (List.mem_reverse.mp this)
    | t' :: ts' =>
      rw [joinWords_cons₂, List.reverse_append, List.reverse_cons]
      obtain ⟨c, cs, hcs, hc⟩ := ih (fun tok htok => h tok (List.mem_cons_of_mem _ htok))
        (by simp)
      rw [hcs]
      exact ⟨c, cs ++ [' '] ++ t.reverse, by simp, hc⟩

lemma stripPy_joinWords {ts : List (List Char)}
    (h : ∀ tok ∈ ts, tok ≠ [] ∧ ∀ c ∈ tok, ¬ isSpaceC c) :
    stripPy (joinWords ts) = joinWords ts := by
  match ts with
  | [] => rfl
  | t :: ts' =>
    have ht := h t (List.mem_cons_self _ _)
    obtain ⟨c0, t0, ht0⟩ := List.exists_cons_of_ne_nil ht.1
    have hhead : ∃ d ds, joinWords (t :: ts') = d :: ds ∧ ¬ isSpaceC d := by
      match ts' with
      | [] =>
        rw [joinWords_single, ht0]
        exact ⟨c0, t0, rfl, ht.2 c0 (by rw [ht0]; exact List.mem_cons_self _ _)⟩
      | t' :: ts'' =>
        rw [joinWords_cons₂, ht0, List.cons_append]
        exact ⟨c0, t0 ++ ' ' :: joinWords (t' :: ts''), rfl,
          ht.2 c0 (by rw [ht0]; exact List.mem_cons_self _ _)⟩
    obtain ⟨d, ds, hds, hd⟩ := hhead
    obtain ⟨e, es, hes, he⟩ := reverse_joinWords_head h (by simp)
    unfold stripPy
    rw [hds, List.dropWhile_cons_of_neg (by simpa using hd), ← hds, hes,
      List.dropWhile_cons_of_neg (by simpa using he), ← hes, List.reverse_reverse]

lemma collapseWsAux_spacefree {l : List Char} (h : ∀ c ∈ l, ¬ isSpaceC c) :
    ∀ b, collapseWsAux b l = l := by
  induction l with
  | nil => intro b; rfl
  | cons c rest ih =>
    intro b
    unfold collapseWsAux
    rw [if_neg (by simpa using h c (List.mem_cons_self _ _))]
    rw [ih (fun d hd => h d (List.mem_cons_of_mem _ hd))]

lemma collapseWsAux_append_word :
    ∀ (t : List Char), (∀ c ∈ t, ¬ isSpaceC c) →
      ∀ (b : Bool) (r : List Char),
        collapseWsAux b (t ++ r) = t ++ collapseWsAux (if t.isEmpty then b else false) r := by
  intro t
  induction t with
  | nil => intro _ b r; rfl
  | cons c t ih =>
    intro h b r
    rw [List.cons_append]
    rw [show collapseWsAux b (c :: (t ++ r)) =
      (if isSpaceC c then
        if b then collapseWsAux true (t ++ r)
        else ' ' :: collapseWsAux true (t ++ r)
      else c :: collapseWsAux false (t ++ r)) from rfl]
    rw [if_neg (by simpa using h c (List.mem_cons_self _ _))]
    rw [ih (fun d hd => h d (List.mem_cons_of_mem _ hd)) false r]
    rw [show (if t.isEmpty then false else false) = false from by
      cases t.isEmpty <;> rfl]
    rfl

lemma collapseWsAux_true_eq_false_of_head {l : List Char}
    (h : l = [] ∨ ∃ c cs, l = c :: cs ∧ ¬ isSpaceC c) :
    collapseWsAux true l = collapseWsAux false l := by
  rcases h with rfl | ⟨c, cs, rfl, hc⟩
  · rfl
  · unfold collapseWsAux
    rw [if_neg (by simpa using hc), if_neg (by simpa using hc)]

lemma collapseWs_joinWords :
    ∀ {ts : List (List Char)}, (∀ tok ∈ ts, tok ≠ [] ∧ ∀ c ∈ tok, ¬ isSpaceC c) →
      collapseWs (joinWords ts) = joinWords ts := by
  intro ts
  induction ts with
  | nil => intro _; rfl
  | cons t ts ih =>
    intro h
    have ht := h t (List.mem_cons_self _ _)
    match ts with
    | [] =>
      rw [joinWords_single]
      exact collapseWsAux_spacefree ht.2 false
    | t' :: ts' =>
      rw [joinWords_cons₂]
      unfold collapseWs
      rw [collapseWsAux_append_word t ht.2 false (' ' :: joinWords (t' :: ts'))]
      congr 1
      rw [show (if t.isEmpty then false else false) = false from by cases t.isEmpty <;> rfl]
      show collapseWsAux false (' ' :: joinWords (t' :: ts')) = ' ' :: joinWords (t' :: ts')
      unfold collapseWsAux
      rw [if_pos (by decide), if_neg (by decide)]
      congr 1
      have ht' := h t' (List.mem_cons_of_mem _ (List.mem_cons_self _ _))
      obtain ⟨c0, t0, ht0⟩ := List.exists_cons_of_ne_nil ht'.1
      have hhead : joinWords (t' :: ts') = c0 :: (t0 ++ (joinWords (t' :: ts')).drop t'.length) := by
        match ts' with
        | [] =>
          rw [joinWords_single, ht0]
          simp
        | t'' :: ts'' =>
          rw [joinWords_cons₂, ht0, List.cons_append]
          congr 1
          rw [show ((c0 :: t0).length) = t0.length + 1 from by simp]
          simp
      rw [hhead, collapseWsAux_true_eq_false_of_head
        (Or.inr ⟨c0, _, rfl, ht'.2 c0 (by rw [ht0]; exact List.mem_cons_self _ _)⟩), ← hhead]
      have := ih (fun tok htok => h tok (List.mem_cons_of_mem _ htok))
      exact this

lemma cleanChars_keep {s : List Char} {c : Char} (h : c ∈ cleanChars s) :
    keepSentimentChar c = true := by
  unfold cleanChars at h
  have h1 := mem_stripPy h
  rcases mem_joinWords h1 with ⟨tok, htok, hct⟩ | rfl
  · rcases mem_splitPyAux_token htok hct with h2 | h2
    · cases h2
    · exact List.of_mem_filter h2
  · decide

/-- The cleaned text is a space-join of nonempty space-free tokens. -/
lemma cleanChars_eq_joinWords (s : List Char) :
    ∃ ts, (∀ tok ∈ ts, tok ≠ [] ∧ ∀ c ∈ tok, ¬ isSpaceC c) ∧
      cleanChars s = joinWords ts := by
  refine ⟨splitPy (stripPunctSentiment (collapseWs (reSub emailMatchLen
    (reSub mentionMatchLen (reSub urlMatchLen (lowerChars s)))))),
    fun tok htok => splitPyAux_tokens (fun c hc => absurd hc (List.not_mem_nil c)) tok htok,
    stripPy_joinWords (fun tok htok =>
      splitPyAux_tokens (fun c hc => absurd hc (List.not_mem_nil c)) tok htok)⟩

/-- On inputs whose cleaned form contains no `http`/`www.` substring and
no `@` or `#`, every stage of a second `clean_text` pass is the identity. -/
lemma cleanChars_idem {s : List Char}
    (hhttp : hasSub ['h', 't', 't', 'p'] (cleanChars s) = false)
    (hwww : hasSub ['w', 'w', 'w', '.'] (cleanChars s) = false)
    (hat : ('@' : Char) ∉ cleanChars s)
    (hhash : ('#' : Char) ∉ cleanChars s) :
    cleanChars (cleanChars s) = cleanChars s := by
  obtain ⟨ts, hts, hjoin⟩ := cleanChars_eq_joinWords s
  have hlower : lowerChars (cleanChars s) = cleanChars s :=
    lowerChars_fixed (fun c hc => cleanChars_lower_fixed hc)
  have hurl : reSub urlMatchLen (cleanChars s) = cleanChars s :=
    reSubAux_id _ _ _ (fun t hsuf => urlMatch_none_of_noSub hhttp hwww hsuf)
  have hmention : reSub mentionMatchLen (cleanChars s) = cleanChars s :=
    reSubAux_id _ _ _ (fun t hsuf => mentionMatch_none_of_not_mem hat hhash hsuf)
  have hemail : reSub emailMatchLen (cleanChars s) = cleanChars s :=
    reSubAux_id _ _ _ (fun t hsuf => emailMatch_none_of_not_mem hat hsuf)
  have hcollapse : collapseWs (cleanChars s) = cleanChars s := by
    rw [hjoin]; exact collapseWs_joinWords hts
  have hpunct : stripPunctSentiment (cleanChars s) = cleanChars s :=
    List.filter_eq_self.mpr (fun c hc => cleanChars_keep hc)
  show stripPy (joinWords (splitPy (stripPunctSentiment (collapseWs (reSub emailMatchLen
    (reSub mentionMatchLen (reSub urlMatchLen (lowerChars (cleanChars s))))))))) = cleanChars s
  rw [hlower, hurl, hmention, hemail, hcollapse, hpunct, hjoin, splitPy_joinWords hts]
  exact stripPy_joinWords hts

/-! # The claims -/

/-- C5: for every input corpus and `n_topics`, the topic list returned by
K-means extraction is sorted by `document_count` descending, with equal
counts kept in ascending original cluster-index (= `topic_id`) order, so
the output order is deterministic for identical input, `n_topics` and seed
(the extractor is a pure function of its inputs, the fixed seed being part
of the modelled K-means results). -/
theorem C5_kmeans_topics_sorted (argsortF : List ℚ → List ℕ) (featureNames : List String)
    (centers : List (List ℚ)) (labels : List ℕ)
    (tokW : String → List String) (lem : String → String) (baseStop : List String)
    (texts : List (Option String)) (n_topics : ℕ) :
    (extractTopicsKmeans argsortF featureNames centers labels tokW lem baseStop texts n_topics).Pairwise
      (fun a b => b.document_count < a.document_count ∨
        (a.document_count = b.document_count ∧ a.topic_id < b.topic_id)) := by
  unfold extractTopicsKmeans
  split
  · exact List.Pairwise.nil
  · dsimp only
    split
    · exact List.Pairwise.nil
    · have hin : (List.range (min n_topics
          (((texts.map (preprocessText tokW lem baseStop)).filter
            (fun t => stripPyS t ≠ "")).length))).Pairwise (fun i j => i < j) :=
        List.pairwise_lt_range _
      refine List.Pairwise.imp ?_ (sortDescBy_pairwise
        (fun t : Topic => (t.document_count : ℚ))
        (fun a b : Topic => a.topic_id < b.topic_id) ?_)
      · rintro a b (h | ⟨h1, h2⟩)
        · exact Or.inl (by exact_mod_cast h)
        · exact Or.inr ⟨by exact_mod_cast h1, h2⟩
      · rw [List.pairwise_map]
        refine hin.imp ?_
        intro i j h
        exact fun _ => h

/-- C10: when K-means extraction returns a non-empty topic list, the
`document_count` values (natural numbers, hence non-negative) sum to the
number of input documents whose topic-mode normalization is non-blank —
the hypotheses state the scikit-learn contract that `fit_predict` returns
one label per vectorized document, each in `range(n_clusters)`. -/
theorem C10_kmeans_counts_partition (argsortF : List ℚ → List ℕ) (featureNames : List String)
    (centers : List (List ℚ)) (labels : List ℕ)
    (tokW : String → List String) (lem : String → String) (baseStop : List String)
    (texts : List (Option String)) (n_topics : ℕ)
    (hne : extractTopicsKmeans argsortF featureNames centers labels tokW lem baseStop texts n_topics ≠ [])
    (hlen : labels.length =
      ((texts.map (preprocessText tokW lem baseStop)).filter (fun t => stripPyS t ≠ "")).length)
    (hlab : ∀ x ∈ labels, x < min n_topics
      ((texts.map (preprocessText tokW lem baseStop)).filter (fun t => stripPyS t ≠ "")).length) :
    ((extractTopicsKmeans argsortF featureNames centers labels tokW lem baseStop texts n_topics).map
        (fun tp => tp.document_count)).sum
      = texts.countP (fun t => stripPyS (preprocessText tokW lem baseStop t) ≠ "") := by
  unfold extractTopicsKmeans at hne ⊢
  dsimp only at hne ⊢
  split at hne
  · exact absurd rfl hne
  · split at hne
    · exact absurd rfl hne
    · rename_i h1 h2
      rw [if_neg h1, if_neg h2]
      rw [sum_map_sortDescBy, List.map_map]
      have h3 : texts.countP (fun t => stripPyS (preprocessText tokW lem baseStop t) ≠ "")
          = labels.length := by
        rw [hlen, ← List.countP_eq_length_filter, List.countP_map]
        rfl
      rw [h3]
      exact sum_range_countP labels _ hlab

/-- C3: the relevance score computed by the assigner equals the spec's
formula — keyword hits over total keywords plus `min(word count/50, 0.2)`
capped at 1 (word count being the cardinality of the document's word set,
as the code takes `set(text.split())`) — and every assignment the
assigner emits has relevance strictly above the 0.1 floor, i.e.
assignments at or below 0.1 are discarded. -/
theorem C3_relevance_formula_and_floor (tokW : String → List String) (lem : String → String)
    (baseStop : List String) (texts : List (Option String)) (topics : List Topic)
    (hkw : ∀ tp ∈ topics, tp.keywords ≠ []) :
    (∀ (text : String) (kws : List String), text ≠ "" → kws ≠ [] →
      calcTopicRelevance text kws = relevanceSpec text kws) ∧
    ∀ a ∈ assignTopicsToDocuments tokW lem baseStop texts topics,
      a.relevance_score > 1 / 10 ∧
      ∃ tp ∈ topics, tp.topic_id = a.topic_id ∧
        a.relevance_score
          = relevanceSpec (preprocessText tokW lem baseStop (texts.getD a.document_id none))
              tp.keywords := by
  refine ⟨calcTopicRelevance_eq_spec, ?_⟩
  intro a ha
  unfold assignTopicsToDocuments at ha
  split at ha
  · cases ha
  · obtain ⟨p, hp, hap⟩ := List.mem_flatMap.mp ha
    obtain ⟨hcl, tp, htp, hdoc, hid, hrel, hgt⟩ := mem_perDocAssignments hap
    refine ⟨hgt, tp, htp, hid.symm, ?_⟩
    rw [hdoc, mem_enum_getD texts p hp, hrel]
    exact calcTopicRelevance_eq_spec _ _ hcl (hkw tp htp)

/-- C3 (witness): the theorem applied to a concrete corpus and topics. -/
theorem C3_witness :
    (∀ (text : String) (kws : List String), text ≠ "" → kws ≠ [] →
      calcTopicRelevance text kws = relevanceSpec text kws) ∧
    ∀ a ∈ assignTopicsToDocuments tokWS lemId [] [some "alpha beta gamma", none]
        [⟨0, "t0", ["alpha", "beta"], [], 0, 0, []⟩, ⟨1, "t1", ["gamma", "delta"], [], 0, 0, []⟩],
      a.relevance_score > 1 / 10 ∧
      ∃ tp ∈ ([⟨0, "t0", ["alpha", "beta"], [], 0, 0, []⟩,
               ⟨1, "t1", ["gamma", "delta"], [], 0, 0, []⟩] : List Topic),
        tp.topic_id = a.topic_id ∧
        a.relevance_score
          = relevanceSpec (preprocessText tokWS lemId []
              (([some "alpha beta gamma", none] : List (Option String)).getD a.document_id none))
              tp.keywords :=
  C3_relevance_formula_and_floor tokWS lemId [] [some "alpha beta gamma", none]
    [⟨0, "t0", ["alpha", "beta"], [], 0, 0, []⟩, ⟨1, "t1", ["gamma", "delta"], [], 0, 0, []⟩]
    (by decide)

/-- C4: the assigner returns at most 3 assignments per document; within
any one document the relevance scores are non-increasing along the output
(strictly greater or tied), and on ties the topic whose original index in
the input topics list is lower comes first (Python's stable sort). -/
theorem C4_per_document_cap_and_order (tokW : String → List String) (lem : String → String)
    (baseStop : List String) (texts : List (Option String)) (topics : List Topic)
    (hnd : (topics.map Topic.topic_id).Nodup) :
    (assignTopicsToDocuments tokW lem baseStop texts topics).Pairwise (fun a b =>
      a.document_id = b.document_id →
        (b.relevance_score < a.relevance_score ∨
         (a.relevance_score = b.relevance_score ∧
          topicPos topics a.topic_id < topicPos topics b.topic_id))) ∧
    ∀ d, (assignTopicsToDocuments tokW lem baseStop texts topics).countP
      (fun a => a.document_id = d) ≤ 3 := by
  constructor
  · unfold assignTopicsToDocuments
    split
    · exact List.Pairwise.nil
    · rw [List.flatMap_def]
      rw [List.pairwise_flatten]
      constructor
      · intro s hs
        obtain ⟨p, hp, rfl⟩ := List.mem_map.mp hs
        refine (perDocAssignments_pairwise hnd p.1 p.2).imp ?_
        intro a b h
        exact fun _ => h
      · rw [List.pairwise_map]
        refine (enum_pairwise_fst_lt texts).imp_of_mem ?_
        intro p q hpmem hqmem hlt
        intro x hx y hy heq
        have hxid := perDocAssignments_docid hx
        have hyid := perDocAssignments_docid hy
        exfalso
        rw [hxid, hyid] at heq
        omega
  · intro d
    unfold assignTopicsToDocuments
    split
    · simp
    · apply countP_flatMap_le_three
      · intro p
        exact perDocAssignments_length tokW lem baseStop topics p.1 p.2
      · intro p a ha
        exact perDocAssignments_docid ha
      · rw [List.enum_map_fst]
        exact List.nodup_range _

/-- C4 (witness): the theorem applied to a concrete corpus and topics. -/
theorem C4_witness :
    (assignTopicsToDocuments tokWS lemId [] [some "alpha beta gamma", none]
        [⟨0, "t0", ["alpha", "beta"], [], 0, 0, []⟩,
         ⟨1, "t1", ["gamma", "delta"], [], 0, 0, []⟩]).Pairwise (fun a b =>
      a.document_id = b.document_id →
        (b.relevance_score < a.relevance_score ∨
         (a.relevance_score = b.relevance_score ∧
          topicPos [⟨0, "t0", ["alpha", "beta"], [], 0, 0, []⟩,
                    ⟨1, "t1", ["gamma", "delta"], [], 0, 0, []⟩] a.topic_id
            < topicPos [⟨0, "t0", ["alpha", "beta"], [], 0, 0, []⟩,
                        ⟨1, "t1", ["gamma", "delta"], [], 0, 0, []⟩] b.topic_id))) ∧
    ∀ d, (assignTopicsToDocuments tokWS lemId [] [some "alpha beta gamma", none]
        [⟨0, "t0", ["alpha", "beta"], [], 0, 0, []⟩,
         ⟨1, "t1", ["gamma", "delta"], [], 0, 0, []⟩]).countP
      (fun a => a.document_id = d) ≤ 3 :=
  C4_per_document_cap_and_order tokWS lemId [] [some "alpha beta gamma", none]
    [⟨0, "t0", ["alpha", "beta"], [], 0, 0, []⟩, ⟨1, "t1", ["gamma", "delta"], [], 0, 0, []⟩]
    (by decide)

/-- C9 (counterexample): on `dts9` — document 0 assigned twice to topic 0
with relevance 1/3, documents 1 and 2 assigned to topic 1 — the summary
entry for topic 0 reports `document_count = 2` although only 1 distinct
document is assigned to it, reports `average_relevance = 0.333 ≠ 1/3`
(3-decimal rounding), and reports `percentage_of_docs = 66.7`, which is
neither the claim's unrounded `document_count/distinct × 100` under the
code's count (200/3) nor under the distinct-document count (100/3). -/
theorem C9_counterexample :
    ((generateTopicSummary topics9 dts9).topics_summary.getD 0 dummyEntry).topic_id = 0 ∧
    ((generateTopicSummary topics9 dts9).topics_summary.getD 0 dummyEntry).document_count = 2 ∧
    ((dts9.filter (fun a => a.topic_id = 0)).map (fun a => a.document_id)).dedup.length = 1 ∧
    ((generateTopicSummary topics9 dts9).topics_summary.getD 0 dummyEntry).average_relevance
      = 333 / 1000 ∧
    npMean ((dts9.filter (fun a => a.topic_id = 0)).map (fun a => a.relevance_score)) = 1 / 3 ∧
    (333 / 1000 : ℚ) ≠ 1 / 3 ∧
    ((generateTopicSummary topics9 dts9).topics_summary.getD 0 dummyEntry).percentage_of_docs
      = 667 / 10 ∧
    (667 / 10 : ℚ) ≠ (2 : ℚ) / 3 * 100 ∧ (667 / 10 : ℚ) ≠ (1 : ℚ) / 3 * 100 := by
  have hc0 : topicDocCount dts9 0 = 2 := by decide
  have hc1 : topicDocCount dts9 1 = 2 := by decide
  have hd3 : distinctDocCount dts9 = 3 := by decide
  have hne9 : ¬ (dts9 = []) := by decide
  have hrel0 : relevancesOf dts9 0 = [1 / 3, 1 / 3] := by
    rw [relevancesOf_eq]
    rw [if_neg (by decide)]
    rfl
  have hrel1 : relevancesOf dts9 1 = [1 / 2, 1 / 2] := by
    rw [relevancesOf_eq]
    rw [if_neg (by decide)]
    rfl
  have hmean0 : npMean [(1 : ℚ) / 3, 1 / 3] = 1 / 3 := by
    unfold npMean
    simp
  have hmean1 : npMean [(1 : ℚ) / 2, 1 / 2] = 1 / 2 := by
    unfold npMean
    simp
  have havg0 : round3 (npMean (relevancesOf dts9 0)) = 333 / 1000 := by
    rw [hrel0, hmean0, round3_eq_low (n := 333) (by norm_num [Int.floor_eq_iff]) (by norm_num)]
    norm_num
  have havg1 : round3 (npMean (relevancesOf dts9 1)) = 1 / 2 := by
    rw [hrel1, hmean1, round3_eq_low (n := 500) (by norm_num [Int.floor_eq_iff]) (by norm_num)]
    norm_num
  have hpct : round1 ((((2 : ℕ) : ℚ)) / (((3 : ℕ) : ℚ)) * 100) = 667 / 10 := by
    rw [show (((2 : ℕ) : ℚ)) / (((3 : ℕ) : ℚ)) * 100 = 2000 / 30 from by push_cast; ring]
    rw [round1_eq_high (n := 666) (by norm_num [Int.floor_eq_iff]) (by norm_num)]
    norm_num
  have hsum : (generateTopicSummary topics9 dts9).topics_summary
      = [⟨0, "t0", [], 2, 333 / 1000, 667 / 10⟩, ⟨1, "t1", [], 2, 1 / 2, 667 / 10⟩] := by
    unfold generateTopicSummary
    rw [if_neg (by decide)]
    dsimp only [topics9, List.map_cons, List.map_nil]
    rw [if_neg hne9, if_neg hne9, hc0, hc1, hd3, havg0, havg1, hpct]
    simp only [sortDescBy, insertDescBy]
    rw [if_pos (le_refl _)]
    rfl
  rw [hsum]
  refine ⟨rfl, rfl, by decide, rfl, ?_, by norm_num, rfl, by norm_num, by norm_num⟩
  rw [show (dts9.filter (fun a => a.topic_id = 0)).map (fun a => a.relevance_score)
    = [1 / 3, 1 / 3] from rfl]
  exact hmean0

/-- C9 (amended): for every topics list and assignments list, the summary
contains an entry per topic whose `document_count` is the number of
assignment *records* with that topic id (not distinct documents),
whose `average_relevance` is the mean of that topic's assignment
relevances rounded to 3 decimals (0 when there are none), and whose
`percentage_of_docs` is document_count over the number of distinct
documents with at least one assignment, times 100, rounded to 1 decimal
(0 when there are no assignments) — not divided by total corpus size. -/
theorem C9_amended_summary_fields (topics : List Topic) (dts : List Assignment)
    (tp : Topic) (htp : tp ∈ topics) :
    ∃ e ∈ (generateTopicSummary topics dts).topics_summary,
      e.topic_id = tp.topic_id ∧
      e.document_count = dts.countP (fun a => a.topic_id = tp.topic_id) ∧
      e.average_relevance = round3 (if (dts.filter (fun a => a.topic_id = tp.topic_id)) = [] then 0
        else ((dts.filter (fun a => a.topic_id = tp.topic_id)).map (fun a => a.relevance_score)).sum
          / ((dts.filter (fun a => a.topic_id = tp.topic_id)).map (fun a => a.relevance_score)).length) ∧
      e.percentage_of_docs = (if dts = [] then 0
        else round1 ((dts.countP (fun a => a.topic_id = tp.topic_id) : ℚ)
          / ((dts.map (fun a => a.document_id)).dedup.length) * 100)) := by
  unfold generateTopicSummary
  rw [if_neg (List.ne_nil_of_mem htp)]
  dsimp only
  refine ⟨TopicSummaryEntry.mk tp.topic_id tp.topic_name (tp.keywords.take 5)
      (topicDocCount dts tp.topic_id) (round3 (npMean (relevancesOf dts tp.topic_id)))
      (if dts = [] then 0
       else round1 ((topicDocCount dts tp.topic_id : ℚ) / (distinctDocCount dts) * 100)),
    ?_, rfl, ?_, ?_, ?_⟩
  · rw [mem_sortDescBy]
    exact List.mem_map_of_mem _ htp
  · exact topicDocCount_eq_countP dts tp.topic_id
  · show round3 (npMean (relevancesOf dts tp.topic_id)) = _
    rw [relevancesOf_eq]
    by_cases hflt : dts.filter (fun a => a.topic_id = tp.topic_id) = []
    · rw [if_pos hflt, if_pos hflt]
      congr 1
      unfold npMean
      norm_num
    · rw [if_neg hflt, if_neg hflt]
      rfl
  · show (if dts = [] then 0
        else round1 ((topicDocCount dts tp.topic_id : ℚ) / (distinctDocCount dts) * 100)) = _
    rw [topicDocCount_eq_countP]
    rfl

/-- C9 (amended, witness): the theorem applied to the concrete summary
input `topics9` / `dts9`. -/
theorem C9_amended_witness :
    ∃ e ∈ (generateTopicSummary topics9 dts9).topics_summary,
      e.topic_id = (⟨0, "t0", [], [], 0, 0, []⟩ : Topic).topic_id ∧
      e.document_count = dts9.countP (fun a => a.topic_id = (⟨0, "t0", [], [], 0, 0, []⟩ : Topic).topic_id) ∧
      e.average_relevance = round3 (if (dts9.filter (fun a => a.topic_id = (⟨0, "t0", [], [], 0, 0, []⟩ : Topic).topic_id)) = [] then 0
        else ((dts9.filter (fun a => a.topic_id = (⟨0, "t0", [], [], 0, 0, []⟩ : Topic).topic_id)).map (fun a => a.relevance_score)).sum
          / ((dts9.filter (fun a => a.topic_id = (⟨0, "t0", [], [], 0, 0, []⟩ : Topic).topic_id)).map (fun a => a.relevance_score)).length) ∧
      e.percentage_of_docs = (if dts9 = [] then 0
        else round1 ((dts9.countP (fun a => a.topic_id = (⟨0, "t0", [], [], 0, 0, []⟩ : Topic).topic_id) : ℚ)
          / ((dts9.map (fun a => a.document_id)).dedup.length) * 100)) :=
  C9_amended_summary_fields topics9 dts9 ⟨0, "t0", [], [], 0, 0, []⟩
    (List.mem_cons_self _ _)

/-- C10 (witness): the theorem applied to a concrete two-document corpus
with cluster labels `[0, 1]`. -/
theorem C10_witness :
    ((extractTopicsKmeans (fun _ => []) [] [[1], [2]] [0, 1] tokWS lemId []
        [some "alpha beta", some "gamma delta"] 2).map (fun tp => tp.document_count)).sum
      = ([some "alpha beta", some "gamma delta"] : List (Option String)).countP
          (fun t => stripPyS (preprocessText tokWS lemId [] t) ≠ "") := by
  apply C10_kmeans_counts_partition
  · unfold extractTopicsKmeans
    rw [if_neg (by decide)]
    dsimp only
    rw [if_neg (by decide)]
    intro h
    have hlen2 := congrArg List.length h
    rw [(sortDescBy_perm _ _).length_eq, List.length_map, List.length_range] at hlen2
    rw [show ((([some "alpha beta", some "gamma delta"] : List (Option String)).map
        (preprocessText tokWS lemId [])).filter (fun t => stripPyS t ≠ "")).length = 2
      from by decide] at hlen2
    simp at hlen2
  · decide
  · decide

/-- C1 (counterexample): with estimator outputs giving the unrounded
combined score 0.04999, the returned (4-decimal-rounded) score is 0.05,
at or above the Positive cutoff, yet the label is Neutral — so the label
is not the claimed function of the returned score. -/
theorem C1_counterexample :
    (analyzeSentiment vZero tbNearCut (some "x") (6 / 10) (4 / 10)).score ≥ 5 / 100 ∧
    (analyzeSentiment vZero tbNearCut (some "x") (6 / 10) (4 / 10)).label = "Neutral" := by
  have hclean : cleanText (some "x") = "x" := by decide
  have hv : analyzeVader vZero (cleanText (some "x")) = 0 := by
    rw [hclean]
    unfold analyzeVader vZero
    rw [if_neg (by decide)]
  have htb : analyzeTextblob tbNearCut (cleanText (some "x")) = (124975 / 1000000, 0) := by
    rw [hclean]
    unfold analyzeTextblob tbNearCut
    rw [if_neg (by decide)]
  rw [analyzeSentiment_eval (by decide) hv htb]
  have harg : (0 : ℚ) * (6 / 10) + 124975 / 1000000 * (4 / 10) = 4999 / 100000 := by
    norm_num
  constructor
  · show round4 ((0 : ℚ) * (6 / 10) + 124975 / 1000000 * (4 / 10)) ≥ 5 / 100
    rw [harg]
    rw [round4_eq_high (n := 499) (by norm_num [Int.floor_eq_iff]) (by norm_num)]
    norm_num
  · show (if (0 : ℚ) * (6 / 10) + 124975 / 1000000 * (4 / 10) ≥ 5 / 100 then "Positive"
      else if (0 : ℚ) * (6 / 10) + 124975 / 1000000 * (4 / 10) ≤ -(5 / 100) then "Negative"
      else "Neutral") = "Neutral"
    rw [harg, if_neg (by norm_num), if_neg (by norm_num)]

/-- C1 (amended): the label is a pure function of the *unrounded* combined
score via the fixed ±0.05 cutoffs (combined ≥ 0.05 → Positive, combined ≤
-0.05 → Negative, else Neutral, the falsy-input early return included);
because the returned score field is that value rounded to 4 decimals, the
label need not match the cutoffs applied to the returned score. -/
theorem C1_amended_label_from_unrounded (V : String → ℚ) (TB : String → ℚ × ℚ)
    (text : Option String) (vw tw : ℚ) :
    (analyzeSentiment V TB text vw tw).label =
      (if combinedScore V TB text vw tw ≥ 5 / 100 then "Positive"
       else if combinedScore V TB text vw tw ≤ -(5 / 100) then "Negative"
       else "Neutral") := by
  cases hpf : pyFalsy text
  · rw [analyzeSentiment_label hpf, combinedScore_eval hpf]
  · rw [analyzeSentiment_falsy hpf, combinedScore_falsy hpf]
    rw [if_neg (by norm_num), if_neg (by norm_num)]
    rfl

/-- C6 (counterexample): with compound 0.123 and polarity 0, the
confidence formula value is 0.0692613, but the returned confidence is its
4-decimal rounding 0.0693, so the returned confidence does not equal the
formula value. -/
theorem C6_counterexample :
    (analyzeSentiment vPoint123 tbZero (some "x") (6 / 10) (4 / 10)).confidence ≠
      min (|combinedScore vPoint123 tbZero (some "x") (6 / 10) (4 / 10)| *
        (1 - |analyzeVader vPoint123 (cleanText (some "x")) -
          (analyzeTextblob tbZero (cleanText (some "x"))).1| / 2)) 1 := by
  have hclean : cleanText (some "x") = "x" := by decide
  have hv : analyzeVader vPoint123 (cleanText (some "x")) = 123 / 1000 := by
    rw [hclean]
    unfold analyzeVader vPoint123
    rw [if_neg (by decide)]
  have htb : analyzeTextblob tbZero (cleanText (some "x")) = (0, 0) := by
    rw [hclean]
    unfold analyzeTextblob tbZero
    rw [if_neg (by decide)]
  rw [analyzeSentiment_eval (by decide) hv htb, combinedScore_eval (by decide), hv, htb]
  show round4 (min (|(123 : ℚ) / 1000 * (6 / 10) + 0 * (4 / 10)| * (1 - |123 / 1000 - 0| / 2)) 1) ≠ _
  have harg : min (|(123 : ℚ) / 1000 * (6 / 10) + 0 * (4 / 10)| * (1 - |123 / 1000 - 0| / 2)) 1
      = 692613 / 10000000 := by
    rw [show |(123 : ℚ) / 1000 * (6 / 10) + 0 * (4 / 10)| = 738 / 10000 from by
      rw [abs_of_pos] <;> norm_num]
    rw [show |(123 : ℚ) / 1000 - 0| = 123 / 1000 from by
      rw [abs_of_pos] <;> norm_num]
    rw [min_eq_left (by norm_num)]
    norm_num
  rw [harg]
  rw [round4_eq_high (n := 692) (by norm_num [Int.floor_eq_iff]) (by norm_num)]
  norm_num

/-- C6 (amended): with default weights and estimator outputs in their
documented ranges, the returned confidence equals the 4-decimal rounding
of `min(|combined| * (1 - |compound - polarity| / 2), 1)`, and the
returned score lies in [-1, 1], confidence in [0, 1] and subjectivity in
[0, 1]. -/
theorem C6_amended_confidence_and_ranges (V : String → ℚ) (TB : String → ℚ × ℚ)
    (t : Option String)
    (hV : ∀ s, -1 ≤ V s ∧ V s ≤ 1)
    (hTBp : ∀ s, -1 ≤ (TB s).1 ∧ (TB s).1 ≤ 1)
    (hTBs : ∀ s, 0 ≤ (TB s).2 ∧ (TB s).2 ≤ 1) :
    (analyzeSentiment V TB t (6 / 10) (4 / 10)).confidence
      = round4 (min (|combinedScore V TB t (6 / 10) (4 / 10)| *
          (1 - |analyzeVader V (cleanText t) - (analyzeTextblob TB (cleanText t)).1| / 2)) 1) ∧
    -1 ≤ (analyzeSentiment V TB t (6 / 10) (4 / 10)).score ∧
    (analyzeSentiment V TB t (6 / 10) (4 / 10)).score ≤ 1 ∧
    0 ≤ (analyzeSentiment V TB t (6 / 10) (4 / 10)).confidence ∧
    (analyzeSentiment V TB t (6 / 10) (4 / 10)).confidence ≤ 1 ∧
    0 ≤ (analyzeSentiment V TB t (6 / 10) (4 / 10)).subjectivity ∧
    (analyzeSentiment V TB t (6 / 10) (4 / 10)).subjectivity ≤ 1 := by
  have hc : -1 ≤ analyzeVader V (cleanText t) ∧ analyzeVader V (cleanText t) ≤ 1 := by
    unfold analyzeVader
    split
    · norm_num
    · exact hV _
  have hp : -1 ≤ (analyzeTextblob TB (cleanText t)).1 ∧ (analyzeTextblob TB (cleanText t)).1 ≤ 1 := by
    unfold analyzeTextblob
    split
    · norm_num
    · exact hTBp _
  have hs : 0 ≤ (analyzeTextblob TB (cleanText t)).2 ∧ (analyzeTextblob TB (cleanText t)).2 ≤ 1 := by
    unfold analyzeTextblob
    split
    · norm_num
    · exact hTBs _
  cases hpf : pyFalsy t
  · rw [analyzeSentiment_eval hpf rfl rfl, combinedScore_eval hpf]
    set c := analyzeVader V (cleanText t) with hcdef
    set p := (analyzeTextblob TB (cleanText t)).1 with hpdef
    set s := (analyzeTextblob TB (cleanText t)).2 with hsdef
    have habs : |c - p| ≤ 2 := by
      have h1 : |c - p| ≤ |c| + |p| := by
        calc |c - p| = |c + -p| := by ring_nf
        _ ≤ |c| + |-p| := abs_add c (-p)
        _ = |c| + |p| := by rw [abs_neg]
      have h2 : |c| ≤ 1 := abs_le.mpr hc
      have h3 : |p| ≤ 1 := abs_le.mpr hp
      linarith
    have hcomb : -1 ≤ c * (6 / 10) + p * (4 / 10) ∧ c * (6 / 10) + p * (4 / 10) ≤ 1 := by
      constructor <;> nlinarith [hc.1, hc.2, hp.1, hp.2]
    have hconf0 : 0 ≤ |c * (6 / 10) + p * (4 / 10)| * (1 - |c - p| / 2) :=
      mul_nonneg (abs_nonneg _) (by linarith)
    have hconfmin : 0 ≤ min (|c * (6 / 10) + p * (4 / 10)| * (1 - |c - p| / 2)) 1 :=
      le_min hconf0 zero_le_one
    have hconfmax : min (|c * (6 / 10) + p * (4 / 10)| * (1 - |c - p| / 2)) 1 ≤ 1 :=
      min_le_right _ _
    refine ⟨rfl, ?_, ?_, ?_, ?_, ?_, ?_⟩
    · exact (round4_bounds hcomb.1 hcomb.2 ⟨-10000, by norm_num⟩ ⟨10000, by norm_num⟩).1
    · exact (round4_bounds hcomb.1 hcomb.2 ⟨-10000, by norm_num⟩ ⟨10000, by norm_num⟩).2
    · exact (round4_bounds hconfmin hconfmax ⟨0, by norm_num⟩ ⟨10000, by norm_num⟩).1
    · exact (round4_bounds hconfmin hconfmax ⟨0, by norm_num⟩ ⟨10000, by norm_num⟩).2
    · exact (round4_bounds hs.1 hs.2 ⟨0, by norm_num⟩ ⟨10000, by norm_num⟩).1
    · exact (round4_bounds hs.1 hs.2 ⟨0, by norm_num⟩ ⟨10000, by norm_num⟩).2
  · have hclean : cleanText t = "" := cleanText_of_falsy hpf
    rw [analyzeSentiment_falsy hpf, combinedScore_falsy hpf, hclean]
    have hv0 : analyzeVader V "" = 0 := by
      unfold analyzeVader
      rw [if_pos rfl]
    have ht0 : analyzeTextblob TB "" = (0, 0) := by
      unfold analyzeTextblob
      rw [if_pos rfl]
    rw [hv0, ht0]
    refine ⟨?_, by norm_num [zeroSentiment], by norm_num [zeroSentiment],
      by norm_num [zeroSentiment], by norm_num [zeroSentiment],
      by norm_num [zeroSentiment], by norm_num [zeroSentiment]⟩
    show (0 : ℚ) = round4 (min (|(0 : ℚ)| * (1 - |(0 : ℚ) - 0| / 2)) 1)
    rw [show min (|(0 : ℚ)| * (1 - |(0 : ℚ) - 0| / 2)) 1 = 0 from by
      rw [min_eq_left (by norm_num [abs_zero])]
      norm_num]
    rw [round4_zero]

/-- C6 (witness): the amended theorem applied to the constant-zero
estimators and the `None` input. -/
theorem C6_amended_witness :
    (analyzeSentiment vZero tbZero none (6 / 10) (4 / 10)).confidence
      = round4 (min (|combinedScore vZero tbZero none (6 / 10) (4 / 10)| *
          (1 - |analyzeVader vZero (cleanText none) - (analyzeTextblob tbZero (cleanText none)).1| / 2)) 1) ∧
    -1 ≤ (analyzeSentiment vZero tbZero none (6 / 10) (4 / 10)).score ∧
    (analyzeSentiment vZero tbZero none (6 / 10) (4 / 10)).score ≤ 1 ∧
    0 ≤ (analyzeSentiment vZero tbZero none (6 / 10) (4 / 10)).confidence ∧
    (analyzeSentiment vZero tbZero none (6 / 10) (4 / 10)).confidence ≤ 1 ∧
    0 ≤ (analyzeSentiment vZero tbZero none (6 / 10) (4 / 10)).subjectivity ∧
    (analyzeSentiment vZero tbZero none (6 / 10) (4 / 10)).subjectivity ≤ 1 :=
  C6_amended_confidence_and_ranges vZero tbZero none
    (fun _ => by unfold vZero; norm_num)
    (fun _ => by unfold tbZero; norm_num)
    (fun _ => by unfold tbZero; norm_num)

/-- C7: `analyze_sentiment` (default weights) on the empty string, on
`None`, on pure whitespace and on pure punctuation yields score 0, label
Neutral, confidence 0 in every case (the embedding is total, so no
exception is possible).  The two hypotheses state the lexicon-model fact
that both estimators report 0 on the cleaned pure-punctuation text
`"!!!"`, which — unlike the other three inputs — does not clean to the
empty string and therefore does reach the estimators. -/
theorem C7_degenerate_inputs (V : String → ℚ) (TB : String → ℚ × ℚ)
    (hV : V "!!!" = 0) (hTB : (TB "!!!").1 = 0) :
    ((analyzeSentiment V TB (some "") (6 / 10) (4 / 10)).score = 0 ∧
     (analyzeSentiment V TB (some "") (6 / 10) (4 / 10)).label = "Neutral" ∧
     (analyzeSentiment V TB (some "") (6 / 10) (4 / 10)).confidence = 0) ∧
    ((analyzeSentiment V TB none (6 / 10) (4 / 10)).score = 0 ∧
     (analyzeSentiment V TB none (6 / 10) (4 / 10)).label = "Neutral" ∧
     (analyzeSentiment V TB none (6 / 10) (4 / 10)).confidence = 0) ∧
    ((analyzeSentiment V TB (some "   ") (6 / 10) (4 / 10)).score = 0 ∧
     (analyzeSentiment V TB (some "   ") (6 / 10) (4 / 10)).label = "Neutral" ∧
     (analyzeSentiment V TB (some "   ") (6 / 10) (4 / 10)).confidence = 0) ∧
    ((analyzeSentiment V TB (some "!!!") (6 / 10) (4 / 10)).score = 0 ∧
     (analyzeSentiment V TB (some "!!!") (6 / 10) (4 / 10)).label = "Neutral" ∧
     (analyzeSentiment V TB (some "!!!") (6 / 10) (4 / 10)).confidence = 0) := by
  refine ⟨?_, ?_, ?_, ?_⟩
  · rw [analyzeSentiment_falsy (by decide)]
    exact ⟨rfl, rfl, rfl⟩
  · rw [analyzeSentiment_falsy (t := none) rfl]
    exact ⟨rfl, rfl, rfl⟩
  · apply sentiment_zero_of_estimators_zero
    · rw [show cleanText (some "   ") = "" from by decide]
      unfold analyzeVader
      rw [if_pos rfl]
    · rw [show cleanText (some "   ") = "" from by decide]
      unfold analyzeTextblob
      rw [if_pos rfl]
  · apply sentiment_zero_of_estimators_zero
    · rw [show cleanText (some "!!!") = "!!!" from by decide]
      unfold analyzeVader
      rw [if_neg (by decide)]
      exact hV
    · rw [show cleanText (some "!!!") = "!!!" from by decide]
      unfold analyzeTextblob
      rw [if_neg (by decide)]
      exact hTB

/-- C7 (witness): the theorem applied to the constant-zero estimators. -/
theorem C7_witness :
    ((analyzeSentiment vZero tbZero (some "") (6 / 10) (4 / 10)).score = 0 ∧
     (analyzeSentiment vZero tbZero (some "") (6 / 10) (4 / 10)).label = "Neutral" ∧
     (analyzeSentiment vZero tbZero (some "") (6 / 10) (4 / 10)).confidence = 0) ∧
    ((analyzeSentiment vZero tbZero none (6 / 10) (4 / 10)).score = 0 ∧
     (analyzeSentiment vZero tbZero none (6 / 10) (4 / 10)).label = "Neutral" ∧
     (analyzeSentiment vZero tbZero none (6 / 10) (4 / 10)).confidence = 0) ∧
    ((analyzeSentiment vZero tbZero (some "   ") (6 / 10) (4 / 10)).score = 0 ∧
     (analyzeSentiment vZero tbZero (some "   ") (6 / 10) (4 / 10)).label = "Neutral" ∧
     (analyzeSentiment vZero tbZero (some "   ") (6 / 10) (4 / 10)).confidence = 0) ∧
    ((analyzeSentiment vZero tbZero (some "!!!") (6 / 10) (4 / 10)).score = 0 ∧
     (analyzeSentiment vZero tbZero (some "!!!") (6 / 10) (4 / 10)).label = "Neutral" ∧
     (analyzeSentiment vZero tbZero (some "!!!") (6 / 10) (4 / 10)).confidence = 0) :=
  C7_degenerate_inputs vZero tbZero rfl rfl

/-- C2: with a positive batch size, `analyze_batch` on N texts returns
exactly N records; the record at position i carries `text_id = i` and the
i-th original text, and when the per-document scoring raises (modelled by
`scoreF` returning `none`) the record carries the substitute
zero/Neutral/zero-confidence result while the rest of the batch is
unaffected. -/
theorem C2_batch_one_record_per_text (scoreF : Option String → Option SentimentResult)
    (texts : List (Option String)) (bs : ℕ) (hbs : 0 < bs) :
    (analyzeBatch scoreF texts bs).length = texts.length ∧
    ∀ i, i < texts.length →
      ((analyzeBatch scoreF texts bs).getD i dummyBatchRecord).text_id = i ∧
      ((analyzeBatch scoreF texts bs).getD i dummyBatchRecord).original_text = texts.getD i none ∧
      (scoreF (texts.getD i none) = none →
        ((analyzeBatch scoreF texts bs).getD i dummyBatchRecord).result = zeroSentiment) := by
  have heq : analyzeBatch scoreF texts bs
      = (texts.enumFrom 0).map (fun p => batchRecord scoreF p.1 p.2) :=
    analyzeBatchAux_eq scoreF hbs texts.length 0 texts (le_refl _)
  constructor
  · rw [heq, List.length_map, List.enumFrom_length]
  · intro i hi
    have hget : (analyzeBatch scoreF texts bs).getD i dummyBatchRecord
        = batchRecord scoreF i (texts.getD i none) := by
      rw [heq]
      have h1 : i < ((texts.enumFrom 0).map (fun p => batchRecord scoreF p.1 p.2)).length := by
        rw [List.length_map, List.enumFrom_length]
        exact hi
      rw [List.getD_eq_getElem _ _ h1, List.getElem_map, List.getElem_enumFrom,
        List.getD_eq_getElem _ _ hi]
      simp
    rw [hget]
    exact ⟨batchRecord_text_id scoreF i _, batchRecord_original_text scoreF i _,
      fun h => batchRecord_of_fail h⟩

/-- C2 (witness): the theorem applied to a concrete three-document batch
(batch size 2) whose middle document fails to score. -/
theorem C2_witness :
    0 < 2 ∧
    ((analyzeBatch (fun t => if t = none then none else some zeroSentiment)
        [some "good", none, some "bad"] 2).length = 3 ∧
     ∀ i, i < ([some "good", none, some "bad"] : List (Option String)).length →
      ((analyzeBatch (fun t => if t = none then none else some zeroSentiment)
          [some "good", none, some "bad"] 2).getD i dummyBatchRecord).text_id = i ∧
      ((analyzeBatch (fun t => if t = none then none else some zeroSentiment)
          [some "good", none, some "bad"] 2).getD i dummyBatchRecord).original_text
        = ([some "good", none, some "bad"] : List (Option String)).getD i none ∧
      ((fun t => if t = none then none else some zeroSentiment)
          (([some "good", none, some "bad"] : List (Option String)).getD i none) = none →
        ((analyzeBatch (fun t => if t = none then none else some zeroSentiment)
            [some "good", none, some "bad"] 2).getD i dummyBatchRecord).result = zeroSentiment)) :=
  ⟨by norm_num,
   C2_batch_one_record_per_text (fun t => if t = none then none else some zeroSentiment)
     [some "good", none, some "bad"] 2 (by norm_num)⟩

set_option maxHeartbeats 2000000 in
/-- C8 (counterexample): neither normalization mode is idempotent.  On
`"htt;px"` the punctuation filter of either mode glues the letters into
`"httpx"`, which the URL regex of a second pass deletes entirely: in
sentiment mode `clean_text(clean_text("htt;px")) = "" ≠ "httpx" =
clean_text("htt;px")`, and in topic mode (with the whitespace tokenizer
and identity lemmatizer standing in for the external models, and an empty
base stopword list) `preprocess_text` maps `"htt;px"` to `"httpx"` and
`"httpx"` to `""` the same way. -/
theorem C8_counterexample :
    cleanTextStr (cleanTextStr "htt;px") ≠ cleanTextStr "htt;px" ∧
    preprocessText tokWS lemId []
        (some (preprocessText tokWS lemId [] (some "htt;px"))) ≠
      preprocessText tokWS lemId [] (some "htt;px") := by
  exact ⟨by decide, by decide⟩

/-- C8 (amended): both normalizers are deterministic — in this model they
are pure functions, so equal inputs give equal outputs — but idempotence
fails for both modes (the counterexample refutes it for sentiment-mode
`clean_text` and for topic-mode `preprocess_text` alike, via the same
punctuation-then-URL-regex interaction), so of the idempotence clause only
a conditional sentiment-mode form survives: on every input whose cleaned
form contains no `http` or `www.` substring and no `@` or `#` character,
a second `clean_text` pass returns its input unchanged (each stage —
lowercasing, the three regex substitutions, whitespace collapsing,
punctuation stripping, split/join, strip — is the identity there). -/
theorem C8_amended_deterministic_conditional_idempotent (t : String)
    (hhttp : hasSub ['h', 't', 't', 'p'] (cleanChars t.toList) = false)
    (hwww : hasSub ['w', 'w', 'w', '.'] (cleanChars t.toList) = false)
    (hat : ('@' : Char) ∉ cleanChars t.toList)
    (hhash : ('#' : Char) ∉ cleanChars t.toList) :
    cleanTextStr (cleanTextStr t) = cleanTextStr t ∧
    (∀ x y : Option String, x = y → cleanText x = cleanText y) ∧
    (∀ tokW lem baseStop (x y : Option String), x = y →
      preprocessText tokW lem baseStop x = preprocessText tokW lem baseStop y) := by
  refine ⟨?_, fun x y h => by rw [h], fun tokW lem baseStop x y h => by rw [h]⟩
  unfold cleanTextStr
  rw [show String.toList (String.mk (cleanChars (String.toList t)))
      = cleanChars (String.toList t) from rfl]
  rw [cleanChars_idem hhttp hwww hat hhash]

/-- C8 (witness): the amended theorem applied to `"Hello, World!"`, whose
cleaned form `"hello world!"` satisfies all four side conditions. -/
theorem C8_amended_witness :
    cleanTextStr (cleanTextStr "Hello, World!") = cleanTextStr "Hello, World!" :=
  (C8_amended_deterministic_conditional_idempotent "Hello, World!"
    (by decide) (by decide) (by decide) (by decide)).1

end SmartFeedback
